import Mathlib

/-!
Verification development for the tailscale-cni per-node network agent.

The Go sources are shallowly embedded: pure fragments become Lean functions,
stateful components become explicit state-passing functions, Go maps become
association lists with overwrite-on-insert semantics, and kernel or daemon
interactions become oracle parameters recording the outcome of each call.
Machine integers are modeled as Int/Nat with explicit wrapping where the Go
code converts between widths.
-/

namespace TailscaleCNI

/-! ## Association lists modeling Go maps -/

/-- Go map read `m[k]`: first binding for key `k`, if any. -/
def lookupA {κ α : Type} [DecidableEq κ] : List (κ × α) → κ → Option α
  | [], _ => none
  | (k, v) :: rest, key => if k = key then some v else lookupA rest key

/-- Go map write `m[k] = v`: overwrite the binding if present, else append. -/
def insertA {κ α : Type} [DecidableEq κ] : List (κ × α) → κ → α → List (κ × α)
  | [], key, v => [(key, v)]
  | (k, w) :: rest, key, v =>
    if k = key then (key, v) :: rest else (k, w) :: insertA rest key v

/-- Go map delete `delete(m, k)`. -/
def eraseA {κ α : Type} [DecidableEq κ] : List (κ × α) → κ → List (κ × α)
  | [], _ => []
  | (k, w) :: rest, key =>
    if k = key then eraseA rest key else (k, w) :: eraseA rest key

/-! ## String helpers shared by the metadata and serve packages.

Strings are treated as their character lists. Go `strings.TrimSpace` trims
Unicode whitespace; the embedding trims the ASCII whitespace characters,
which covers every input the agent handles. Go `strings.ToLower` is modeled
per character on ASCII letters; non-ASCII characters are left unchanged
(they are rejected or replaced by every consumer of these helpers anyway). -/

/-- Whitespace characters recognized by the TrimSpace model. -/
def isSpaceChar (c : Char) : Bool :=
  c = ' ' ∨ c = '\t' ∨ c = '\n' ∨ c = '\x0b' ∨ c = '\x0c' ∨ c = '\r'

/-- Character-list trim: drop the leading and trailing run of characters
satisfying p (rdropWhile drops from the tail end). -/
def trimChars (p : Char → Bool) (l : List Char) : List Char :=
  List.rdropWhile p (List.dropWhile p l)

/-- Go strings.TrimSpace. -/
def trimSpace (s : String) : String :=
  String.mk (trimChars isSpaceChar s.toList)

/-- ASCII lowercase of one character. -/
def lowerChar (c : Char) : Char :=
  if 'A' ≤ c ∧ c ≤ 'Z' then Char.ofNat (c.toNat + 32) else c

/-- Go strings.ToLower (ASCII model). -/
def toLowerStr (s : String) : String :=
  String.mk (s.toList.map lowerChar)

/-! ## metadata package: domain normalization, FQDN check, cert authorizer -/

/-- metadata.normalizeDomain: ToLower(TrimSpace(domain)). -/
def normalizeDomain (domain : String) : String :=
  toLowerStr (trimSpace domain)

/-- Character set accepted by metadata.validFQDN: dot, hyphen, a-z, 0-9. -/
def fqdnChar (c : Char) : Bool :=
  c = '.' ∨ c = '-' ∨ ('a' ≤ c ∧ c ≤ 'z') ∨ ('0' ≤ c ∧ c ≤ '9')

/-- metadata.validFQDN: trims, then requires non-empty, length at most 253,
a dot somewhere, and only characters from `fqdnChar`. Go compares the byte
length; the embedding compares the character count, which yields the same
boolean because any string whose byte and character counts differ contains a
multi-byte character, and such a character already fails the character-set
check. -/
def validFQDN (domain : String) : Bool :=
  let d := (trimSpace domain).toList
  ¬(d = []) ∧ d.length ≤ 253 ∧ d.contains '.' ∧ d.all fqdnChar

/-- CertAuthorizerImpl.byIP: domain → pod IPs allowed to fetch that cert.
The Go value is a set; list membership models set membership. -/
abbrev CertTable := List (String × List String)

/-- Body of the SetAllowedDomains loop: normalize the domain, skip empty
normalized domains, keep only non-empty IPs, and skip domains whose IP set
ends up empty. -/
def certTableStep (acc : CertTable) (p : String × List String) : CertTable :=
  if normalizeDomain p.fst = "" then acc
  else if p.snd.filter (fun ip => ip ≠ "") = [] then acc
  else insertA acc (normalizeDomain p.fst) (p.snd.filter (fun ip => ip ≠ ""))

/-- CertAuthorizerImpl.SetAllowedDomains, build phase. The argument list
models the Go map iteration. -/
def buildCertTable (arg : List (String × List String)) : CertTable :=
  arg.foldl certTableStep []

/-- CertAuthorizerImpl.SetAllowedDomains: the new table replaces the old one
wholesale; the previous state is discarded. -/
def setAllowedDomains (_ : CertTable) (arg : List (String × List String)) : CertTable :=
  buildCertTable arg

/-- CertAuthorizerImpl.AllowedCertDomain. -/
def allowedCertDomain (tbl : CertTable) (callerPodIP domain : String) : Bool :=
  let d := normalizeDomain domain
  if d = "" then false
  else
    match lookupA tbl d with
    | none => false
    | some ips => ips.contains callerPodIP

/-! ## metadata package: token store -/

/-- TokenStore.tokens: token → absolute expiry. Time is modeled as an integer
number of seconds. -/
abbrev TokenMap := List (String × Int)

/-- Clamp performed by TokenStore.Create: below 1 becomes 1, above 21600
becomes 21600. -/
def tokenClamp (ttlSeconds : Int) : Int :=
  let t := if ttlSeconds < 1 then 1 else ttlSeconds
  if t > 21600 then 21600 else t

/-- TokenStore.Create: record the freshly generated token (supplied here by
the randomness oracle `tok`) with expiry now + clamped TTL. -/
def tokenCreate (store : TokenMap) (now : Int) (tok : String) (ttlSeconds : Int) : TokenMap :=
  insertA store tok (now + tokenClamp ttlSeconds)

/-- TokenStore.Valid: the token exists and now is strictly before its expiry. -/
def tokenValid (store : TokenMap) (now : Int) (tok : String) : Bool :=
  match lookupA store tok with
  | none => false
  | some expiry => now < expiry

/-! ## metadata package: HTTP handlers -/

/-- Result of an HTTP handler: status code and response body. Bodies written
via http.Error or w.Write are both captured as plain text; the JSON cert
response is captured as its two PEM fields joined below. -/
structure HttpResult where
  status : Nat
  body : String
  deriving DecidableEq

/-- Decimal digit run to a number; none on empty or non-digit input. -/
def digitsToNat? (l : List Char) : Option Nat :=
  if l = [] ∨ ¬ l.all (fun c => c.isDigit) then none
  else some (l.foldl (fun acc c => acc * 10 + (c.toNat - '0'.toNat)) 0)

/-- Go strconv.Atoi: optional sign, at least one digit, int64 range check. -/
def atoi (s : String) : Option Int :=
  match s.toList with
  | '+' :: rest =>
    match digitsToNat? rest with
    | none => none
    | some n => if n ≤ 9223372036854775807 then some (Int.ofNat n) else none
  | '-' :: rest =>
    match digitsToNat? rest with
    | none => none
    | some n => if n ≤ 9223372036854775808 then some (-(Int.ofNat n)) else none
  | l =>
    match digitsToNat? l with
    | none => none
    | some n => if n ≤ 9223372036854775807 then some (Int.ofNat n) else none

/-- Server.servePutToken. Inputs: current store and clock, the randomness
oracle outcome for the new token (none models a crypto/rand failure), the
request method and the TTL header value (empty string when absent, matching
Go Header.Get). Returns the response and the updated store. -/
def servePutToken (store : TokenMap) (now : Int) (randTok : Option String)
    (method ttlHeader : String) : HttpResult × TokenMap :=
  if method ≠ "PUT" then (⟨405, "method not allowed"⟩, store)
  else if ttlHeader = "" then (⟨400, "missing TTL header"⟩, store)
  else
    match atoi ttlHeader with
    | none => (⟨400, "invalid TTL header"⟩, store)
    | some ttl =>
      if ttl < 1 then (⟨400, "invalid TTL header"⟩, store)
      else
        let ttl := if ttl > 21600 then 21600 else ttl
        match randTok with
        | none => (⟨500, "token creation failed"⟩, store)
        | some tok => (⟨200, tok⟩, tokenCreate store now tok ttl)

/-- Go net.SplitHostPort, host component: split at the last colon; a
bracketed host has its brackets removed; an unbracketed host containing a
further colon, stray brackets, or an address without any colon is an error
(none). Covers the host:port shapes http.Request.RemoteAddr produces. -/
def splitHostPortHost (addr : String) : Option String :=
  let l := addr.toList
  if ¬ l.contains ':' then none
  else
    let hostLen := (l.reverse.dropWhile (fun c => c ≠ ':')).length - 1
    let host := l.take hostLen
    match host with
    | '[' :: rest =>
      if rest ≠ [] ∧ rest.getLast? = some ']' then
        some (String.mk (rest.take (rest.length - 1)))
      else none
    | h =>
      if h.contains ':' ∨ h.contains '[' ∨ h.contains ']' then none
      else some (String.mk h)

/-- Caller IP derivation in serveGetCert: SplitHostPort host on success,
otherwise the raw RemoteAddr. -/
def callerIPof (remoteAddr : String) : String :=
  match splitHostPortHost remoteAddr with
  | some h => h
  | none => remoteAddr

/-- Server.serveGetCert. Inputs: token store and clock; the cert authorizer
table (none models a Server with certAuthorizer == nil, which disables the
endpoint); the upstream CertPair outcome oracle; then the request method,
token header, domain query parameter (empty when absent) and RemoteAddr.
The 200 body is the two PEM strings joined by a newline. -/
def serveGetCert (store : TokenMap) (now : Int) (authorizer : Option CertTable)
    (certPair : String → Option (String × String))
    (method tokenHeader domainParam remoteAddr : String) : HttpResult :=
  if method ≠ "GET" then ⟨405, "method not allowed"⟩
  else if tokenHeader = "" ∨ ¬ tokenValid store now tokenHeader then ⟨401, "unauthorized"⟩
  else
    match authorizer with
    | none => ⟨404, "cert endpoint disabled"⟩
    | some tbl =>
      let domain := trimSpace domainParam
      if domain = "" then ⟨400, "missing query domain="⟩
      else
        let domain := normalizeDomain domain
        if ¬ validFQDN domain then ⟨400, "invalid domain"⟩
        else
          let callerIP := callerIPof remoteAddr
          if ¬ allowedCertDomain tbl callerIP domain then ⟨403, "forbidden"⟩
          else
            match certPair domain with
            | none => ⟨502, "cert lookup failed"⟩
            | some (certPEM, keyPEM) => ⟨200, certPEM ++ "\n" ++ keyPEM⟩

/-! ## IPv4 addresses and prefixes (netip.ParseAddr / netip.ParsePrefix /
net.ParseIP / net.ParseCIDR, IPv4 model).

The agents pod subnets and gateway addresses are IPv4 (the masq package
rejects IPv6 pod CIDRs outright); IPv6 literals are modeled as parse
failures. -/

structure IPv4 where
  a : Nat
  b : Nat
  c : Nat
  d : Nat
  deriving DecidableEq

/-- One dotted-quad octet: 1-3 decimal digits, no leading zero, at most 255. -/
def parseOctet? (l : List Char) : Option Nat :=
  if l = [] ∨ 3 < l.length ∨ ¬ l.all Char.isDigit then none
  else if 1 < l.length ∧ l.head? = some '0' then none
  else
    let n := l.foldl (fun acc c => acc * 10 + (c.toNat - '0'.toNat)) 0
    if n ≤ 255 then some n else none

/-- Character-level strings.Split with a one-character separator. -/
def splitOnChar (sep : Char) : List Char → List (List Char)
  | [] => [[]]
  | c :: rest =>
    let r := splitOnChar sep rest
    if c = sep then [] :: r
    else
      match r with
      | h :: t => (c :: h) :: t
      | [] => [[c]]

/-- Dotted-quad IPv4 address parser. -/
def parseIPv4 (s : String) : Option IPv4 :=
  match (splitOnChar '.' s.toList).map parseOctet? with
  | [some a, some b, some c, some d] => some ⟨a, b, c, d⟩
  | _ => none

structure IPv4Pfx where
  addr : IPv4
  bits : Nat
  deriving DecidableEq

/-- Prefix length after the slash: decimal, no leading zero, at most 32. -/
def parseBits? (l : List Char) : Option Nat :=
  if l = [] ∨ 2 < l.length ∨ ¬ l.all Char.isDigit then none
  else if 1 < l.length ∧ l.head? = some '0' then none
  else
    let n := l.foldl (fun acc c => acc * 10 + (c.toNat - '0'.toNat)) 0
    if n ≤ 32 then some n else none

/-- CIDR parser: address, last slash, prefix length. Like Go, the address may
have host bits set; Masked() normalizes later. -/
def parsePrefix4 (s : String) : Option IPv4Pfx :=
  let l := s.toList
  if ¬ l.contains '/' then none
  else
    let ipLen := (l.reverse.dropWhile (fun c => c ≠ '/')).length - 1
    match parseIPv4 (String.mk (l.take ipLen)), parseBits? (l.drop (ipLen + 1)) with
    | some ip, some b => some ⟨ip, b⟩
    | _, _ => none

/-- Numeric value of an IPv4 address. -/
def ipVal (ip : IPv4) : Nat :=
  ((ip.a * 256 + ip.b) * 256 + ip.c) * 256 + ip.d

/-- Value of Prefix.Masked().Addr(): host bits cleared. -/
def maskedVal (p : IPv4Pfx) : Nat :=
  ipVal p.addr / 2 ^ (32 - p.bits) * 2 ^ (32 - p.bits)

/-- Big-endian 4-byte representation (AsSlice). -/
def octetsOf (v : Nat) : List Nat :=
  [v / 16777216 % 256, v / 65536 % 256, v / 256 % 256, v % 256]

/-- IPNet.Contains: the address agrees with the prefix on the network bits. -/
def cidrContains (p : IPv4Pfx) (ip : IPv4) : Bool :=
  ipVal ip / 2 ^ (32 - p.bits) = ipVal p.addr / 2 ^ (32 - p.bits)

/-! ## routes package.

Kernel netlink outcomes are oracle parameters: `RouteEnv` fixes, for every
(cidr, via) pair, what netlink.RouteAdd and netlink.RouteDel would return.
The Manager applied-route cache `routes` is an association list cidr → via.
Every addRoute/delRoute invocation is recorded in a trace. -/

/-- Outcome of netlink.RouteAdd. -/
inductive AddRes
  | ok
  | eexist
  | enetunreach
  | err (msg : String)
  deriving DecidableEq

/-- Outcome of netlink.RouteDel. -/
inductive DelRes
  | ok
  | esrch
  | enoent
  | err (msg : String)
  deriving DecidableEq

/-- Kernel-side oracle for one reconciliation cycle: netlink results and
interface lookup. -/
structure RouteEnv where
  addRes : String → String → AddRes
  delRes : String → DelRes
  linkIndex : String → Option Nat

/-- Error value escaping routes_linux.addRoute: the distinguished
ENETUNREACH errno or any other error message. -/
inductive RouteErr
  | unreachable
  | other (msg : String)
  deriving DecidableEq

/-- Character-list prefix test. -/
def leadsWith : List Char → List Char → Bool
  | [], _ => true
  | _ :: _, [] => false
  | p :: ps, c :: cs => p = c ∧ leadsWith ps cs

/-- Character-list substring test (strings.Contains). -/
def hasSubstr : List Char → List Char → Bool
  | [], pat => pat = []
  | s@(_ :: rest), pat => leadsWith pat s ∨ hasSubstr rest pat

/-- Substring test used by the isNetworkUnreachable message fallback. -/
def containsSubstr (s pat : String) : Bool :=
  hasSubstr s.toList pat.toList

/-- routes.isNetworkUnreachable: ENETUNREACH errno or a message containing
"network is unreachable". -/
def isNetworkUnreachable : RouteErr → Bool
  | .unreachable => true
  | .other m => containsSubstr m "network is unreachable"

/-- routes_linux.addRoute: parse the cidr and gateway, resolve the egress
link when an interface name is configured, issue RouteAdd; EEXIST is treated
as success. Returns none on success. -/
def addRouteL (env : RouteEnv) (cidr via iface : String) : Option RouteErr :=
  match parsePrefix4 cidr with
  | none => some (.other "parse cidr")
  | some _ =>
    match parseIPv4 via with
    | none => some (.other "parse via")
    | some _ =>
      if iface ≠ "" ∧ env.linkIndex iface = none then some (.other "link lookup")
      else
        match env.addRes cidr via with
        | .ok => none
        | .eexist => none
        | .enetunreach => some .unreachable
        | .err m => some (.other m)

/-- routes_linux.delRoute: parse the cidr, issue RouteDel; ESRCH and ENOENT
(route already gone) are treated as success. Returns none on success. -/
def delRouteL (env : RouteEnv) (cidr : String) : Option String :=
  match parsePrefix4 cidr with
  | none => some "parse cidr"
  | some _ =>
    match env.delRes cidr with
    | .ok => none
    | .esrch => none
    | .enoent => none
    | .err m => some m

/-- One recorded backend invocation during EnsureRoutes. -/
inductive RouteOp
  | addAttempt (cidr via : String) (res : Option RouteErr)
  | delAttempt (cidr : String) (res : Option String)
  deriving DecidableEq

/-- Applied-route cache: cidr → via. -/
abbrev RouteCache := List (String × String)

/-- Output of the add phase of EnsureRoutes. -/
structure Phase1Out where
  routes : RouteCache
  current : RouteCache
  ops : List RouteOp
  err : Option String
  deriving DecidableEq

/-- Add phase of Manager.EnsureRoutes: walk desired; entries whose cached via
already matches are dropped from `current`; otherwise addRoute is attempted.
Gateway-unreachable failures are logged and skipped, leaving both caches
untouched; success records the route and drops the entry from `current`; any
other failure aborts with an error. -/
def ensureAdds (env : RouteEnv) (iface : String) :
    RouteCache → RouteCache → List (String × String) → Phase1Out
  | routes, current, [] => ⟨routes, current, [], none⟩
  | routes, current, (cidr, via) :: rest =>
    if lookupA current cidr = some via then
      ensureAdds env iface routes (eraseA current cidr) rest
    else
      match addRouteL env cidr via iface with
      | some e =>
        if isNetworkUnreachable e then
          let o := ensureAdds env iface routes current rest
          ⟨o.routes, o.current, .addAttempt cidr via (some e) :: o.ops, o.err⟩
        else
          ⟨routes, current, [.addAttempt cidr via (some e)], some ("add route " ++ cidr)⟩
      | none =>
        let o := ensureAdds env iface (insertA routes cidr via) (eraseA current cidr) rest
        ⟨o.routes, o.current, .addAttempt cidr via none :: o.ops, o.err⟩

/-- Output of the delete phase of EnsureRoutes. -/
structure Phase2Out where
  routes : RouteCache
  ops : List RouteOp
  err : Option String
  deriving DecidableEq

/-- Delete phase of Manager.EnsureRoutes: every entry still in `current` is
stale; delRoute it and drop it from the cache, aborting on a real failure. -/
def ensureDels (env : RouteEnv) : RouteCache → RouteCache → Phase2Out
  | routes, [] => ⟨routes, [], none⟩
  | routes, (cidr, _) :: rest =>
    match delRouteL env cidr with
    | some m => ⟨routes, [.delAttempt cidr (some m)], some ("del route " ++ cidr)⟩
    | none =>
      let o := ensureDels env (eraseA routes cidr) rest
      ⟨o.routes, .delAttempt cidr none :: o.ops, o.err⟩

/-- Result of one Manager.EnsureRoutes call. -/
structure EnsureResult where
  routes : RouteCache
  error : Option String
  trace : List RouteOp
  deriving DecidableEq

/-- Manager.EnsureRoutes: copy the cache, run the add phase over desired, and
unless it aborted run the delete phase over the leftover copy. The desired
map is presented as a key-ordered association list (one iteration order of
the Go map). -/
def ensureRoutes (env : RouteEnv) (iface : String) (routes0 : RouteCache)
    (desired : List (String × String)) : EnsureResult :=
  let p1 := ensureAdds env iface routes0 routes0 desired
  match p1.err with
  | some e => ⟨p1.routes, some e, p1.ops⟩
  | none =>
    let p2 := ensureDels env p1.routes p1.current
    ⟨p2.routes, p2.err, p1.ops ++ p2.ops⟩

/-! ## controller package: self-node reconciliation gate -/

/-- Outcome of one invocation of the self-reconcile pipeline (CNI config
write, route advertisement, accept-routes, firewall), as observed by the
controller. -/
inductive PipelineResult
  | success
  | failure (msg : String)
  deriving DecidableEq

/-- Controller.maybeReconcileFromNode: compare the event node pod CIDR with
the cached last-applied value. Empty CIDR: log only. Unchanged: skip. Changed:
invoke the pipeline; the cache is updated only on success. Returns the new
cached value and whether the pipeline was invoked. -/
def maybeReconcileFromNode (lastAppliedCIDR podCIDR : String)
    (pipeline : PipelineResult) : String × Bool :=
  if podCIDR = "" then (lastAppliedCIDR, false)
  else if podCIDR = lastAppliedCIDR then (lastAppliedCIDR, false)
  else
    match pipeline with
    | .success => (podCIDR, true)
    | .failure _ => (lastAppliedCIDR, true)

/-! ## masq package: nftables rule construction.

Setup always deletes the tailscale-cni table and recreates it from scratch;
the embedding captures the recreated ruleset (the value determined by the
AddTable/AddChain/AddRule calls of one invocation) as data, so that rule-set
equality between two invocations is plain equality of these values. Kernel
Flush/transport failures are outside the rule-set computation. -/

inductive CmpOp
  | eq
  | neq
  deriving DecidableEq

inductive PayloadBase
  | network
  | transport
  deriving DecidableEq

/-- The nftables expressions Setup emits, with the registers and operands the
Go code sets. The dnat constructor records (family, RegAddrMin, RegProtoMin)
of the NATTypeDestNAT expression. -/
inductive NftExpr
  | payload (destRegister : Nat) (base : PayloadBase) (offset len : Nat)
  | bitwise (sourceRegister destRegister len : Nat) (mask xorData : List Nat)
  | cmp (op : CmpOp) (register : Nat) (data : List Nat)
  | metaOifname (register : Nat)
  | immediate (register : Nat) (data : List Nat)
  | masquerade
  | dnat (family regAddrMin regProtoMin : Nat)
  deriving DecidableEq

structure NftChain where
  name : String
  typ : String
  hook : String
  priority : Int
  deriving DecidableEq

structure NftRule where
  chain : String
  exprs : List NftExpr
  deriving DecidableEq

structure NftRuleset where
  table : String
  chains : List NftChain
  rules : List NftRule
  deriving DecidableEq

deriving instance DecidableEq for Except

/-- masq.netmask4: byte i is ^(0xff >> n) with n the bits remaining for that
byte, capped at 8. -/
def netmask4 (bits : Nat) : List Nat :=
  let oct (i : Nat) : Nat := 255 - (255 >>> min 8 (bits - 8 * i))
  [oct 0, oct 1, oct 2, oct 3]

/-- UTF-8 bytes of one character. -/
def utf8Bytes (c : Char) : List Nat :=
  let n := c.toNat
  if n < 128 then [n]
  else if n < 2048 then [192 + n / 64, 128 + n % 64]
  else if n < 65536 then [224 + n / 4096, 128 + n / 64 % 64, 128 + n % 64]
  else [240 + n / 262144, 128 + n / 4096 % 64, 128 + n / 64 % 64, 128 + n % 64]

/-- Byte representation of a Go string. -/
def strBytes (s : String) : List Nat :=
  (s.toList.map utf8Bytes).flatten

/-- masq.padIfname: the name bytes in a zero-padded 16-byte buffer
(IFNAMSIZ); copy truncates names longer than 16 bytes. -/
def padIfname (name : String) : List Nat :=
  let b := (strBytes name).take 16
  b ++ List.replicate (16 - b.length) 0

/-- Destination bytes 169.254.169.253 of the metadata redirect match. -/
def metadataIPBytes : List Nat := [169, 254, 169, 253]

/-- Expression sequence of the masquerade rule. -/
def masqRuleExprs (mask network padBridge padTS : List Nat) : List NftExpr :=
  [.payload 1 .network 12 4,
   .bitwise 1 1 4 mask [0, 0, 0, 0],
   .cmp .eq 1 network,
   .metaOifname 2,
   .cmp .neq 2 padBridge,
   .metaOifname 2,
   .cmp .neq 2 padTS,
   .masquerade]

/-- Expression sequence of the metadata redirect (DNAT) rule. -/
def metaRuleExprs (mask network portBytes : List Nat) : List NftExpr :=
  [.payload 1 .network 16 4,
   .cmp .eq 1 metadataIPBytes,
   .payload 1 .transport 2 2,
   .cmp .eq 1 [0, 80],
   .payload 1 .network 12 4,
   .bitwise 1 1 4 mask [0, 0, 0, 0],
   .cmp .eq 1 network,
   .immediate 2 [127, 0, 0, 1],
   .immediate 3 portBytes,
   .dnat 2 2 3]

/-- Big-endian two-byte buffer byte(port >> 8), byte(port); only reached for
positive ports. -/
def portBytesOf (port : Int) : List Nat :=
  [port.toNat / 256 % 256, port.toNat % 256]

/-- masq.Setup, rule construction: parse and validate the pod CIDR, build the
masquerade chain and rule, and add the metadata redirect chain exactly when
the redirect port is positive. The Go Is4 check appears here as the IPv4-only
parser; the bits range check is kept although the parser already bounds it. -/
def masqSetupRules (podCIDR bridgeName tailscaleInterface : String)
    (metadataRedirectPort : Int) : Except String NftRuleset :=
  match parsePrefix4 podCIDR with
  | none => .error "pod CIDR"
  | some p =>
    if 32 < p.bits then .error "invalid prefix bits"
    else
      let mask := netmask4 p.bits
      let network := octetsOf (maskedVal p)
      let base : NftRuleset :=
        { table := "tailscale-cni",
          chains := [⟨"masq", "nat", "postrouting", 99⟩],
          rules := [⟨"masq",
            masqRuleExprs mask network (padIfname bridgeName) (padIfname tailscaleInterface)⟩] }
      if 0 < metadataRedirectPort then
        .ok { base with
          chains := base.chains ++ [⟨"metadata-redirect", "nat", "prerouting", -100⟩],
          rules := base.rules ++
            [⟨"metadata-redirect", metaRuleExprs mask network (portBytesOf metadataRedirectPort)⟩] }
      else .ok base

/-- The data Setup actually feeds into the emitted rules: mask and network of
the parsed pod subnet, the two 16-byte padded interface names, and the
two-byte redirect port when positive. -/
structure MasqNorm where
  mask : List Nat
  network : List Nat
  padBridge : List Nat
  padTS : List Nat
  portBytes : Option (List Nat)
  deriving DecidableEq

/-- Normalized view of a Setup input tuple (defined when the CIDR parses). -/
def masqNormOf (podCIDR bridgeName tailscaleInterface : String)
    (metadataRedirectPort : Int) : Option MasqNorm :=
  match parsePrefix4 podCIDR with
  | none => none
  | some p =>
    if 32 < p.bits then none
    else
      some ⟨netmask4 p.bits, octetsOf (maskedVal p), padIfname bridgeName,
        padIfname tailscaleInterface,
        if 0 < metadataRedirectPort then some (portBytesOf metadataRedirectPort) else none⟩

/-- Ruleset determined by a normalized input. -/
def rulesFromNorm (n : MasqNorm) : NftRuleset :=
  let base : NftRuleset :=
    { table := "tailscale-cni",
      chains := [⟨"masq", "nat", "postrouting", 99⟩],
      rules := [⟨"masq", masqRuleExprs n.mask n.network n.padBridge n.padTS⟩] }
  match n.portBytes with
  | some pb =>
    { base with
      chains := base.chains ++ [⟨"metadata-redirect", "nat", "prerouting", -100⟩],
      rules := base.rules ++ [⟨"metadata-redirect", metaRuleExprs n.mask n.network pb⟩] }
  | none => base

/-! ## serve package: naming -/

/-- serve.LoadBalancerClass. -/
def loadBalancerClass : String := "lds.li/tailscale-cni"

/-- serve.ServiceNameAnnotation key. -/
def serviceNameAnnotKey : String := "tailscale-cni.lds.li/service-name"

/-- Characters a DNS label keeps: lowercase letters, digits, hyphen. -/
def goodLabelChar (c : Char) : Bool :=
  ('a' ≤ c ∧ c ≤ 'z') ∨ ('0' ≤ c ∧ c ≤ '9') ∨ c = '-'

/-- Regexp replacement of every maximal run of characters outside
`goodLabelChar` by a single hyphen; `prevBad` tracks whether the previous
character belonged to such a run. -/
def collapseBad (prevBad : Bool) : List Char → List Char
  | [] => []
  | c :: rest =>
    if goodLabelChar c then c :: collapseBad false rest
    else if prevBad then collapseBad true rest
    else '-' :: collapseBad true rest

/-- strings.Trim(s, "-") on a character list. -/
def trimHyphens (l : List Char) : List Char :=
  trimChars (fun c => c = '-') l

/-- serve.dnsLabelSanitize: lowercase, replace runs of invalid characters by
a hyphen, trim hyphens, and if still longer than 63 truncate to 63 and trim
hyphens again. The Go byte-slice truncation equals character truncation here
because the collapsed string is ASCII. -/
def dnsLabelSanitize (s : String) : String :=
  let l := collapseBad false (s.toList.map lowerChar)
  let l := trimHyphens l
  let l := if 63 < l.length then trimHyphens (l.take 63) else l
  String.mk l

/-- serve.defaultServiceName: sanitize "k8s-" + ns + "-" + name, with a fixed
fallback if sanitization leaves nothing. -/
def defaultServiceName (ns name : String) : String :=
  let s := dnsLabelSanitize ("k8s-" ++ ns ++ "-" ++ name)
  if s = "" then "k8s-svc" else s

/-! ## serve package: Kubernetes object model (the fields the code reads) -/

/-- intstr.IntOrString of a Service target port. -/
inductive IntOrString
  | int (n : Int)
  | str (s : String)
  deriving DecidableEq

/-- corev1.ServicePort fields used by the synthesizer. -/
structure ServicePort where
  name : String
  protocol : String
  port : Int
  targetPort : IntOrString
  deriving DecidableEq

/-- corev1.Service fields used by the synthesizer. -/
structure KService where
  ns : String
  name : String
  annotations : List (String × String)
  specType : String
  loadBalancerClassOf : Option String
  clusterIP : String
  ports : List ServicePort
  deriving DecidableEq

/-- discoveryv1.EndpointPort fields used by the synthesizer. -/
structure EndpointPort where
  name : Option String
  port : Option Int
  deriving DecidableEq

/-- discoveryv1.Endpoint fields used by the synthesizer. -/
structure KEndpoint where
  addresses : List String
  nodeName : Option String
  deriving DecidableEq

/-- discoveryv1.EndpointSlice fields used by the synthesizer. -/
structure KEndpointSlice where
  ns : String
  labels : List (String × String)
  ports : List EndpointPort
  endpoints : List KEndpoint
  deriving DecidableEq

/-- Go map read with zero value: labels[k] is "" when the key is absent. -/
def labelGet (labels : List (String × String)) (key : String) : String :=
  match lookupA labels key with
  | some v => v
  | none => ""

/-- discoveryv1.LabelServiceName. -/
def labelServiceNameKey : String := "kubernetes.io/service-name"

/-- Annotation read in TailscaleServiceName (Go map zero value ""). -/
def annotValue (svc : KService) : String :=
  labelGet svc.annotations serviceNameAnnotKey

/-- serve.TailscaleServiceName without the external tailcfg wrapper: the
bare name is the trimmed annotation when the annotation is non-empty, else
the sanitized default; empty bare gives the empty name, otherwise the name
is "svc:" + bare. tailcfg.AsServiceName (external library) is modeled as the
identity injection into the service-name string type. -/
def tailscaleServiceName (svc : KService) : String :=
  let bare :=
    if annotValue svc ≠ "" then trimSpace (annotValue svc)
    else defaultServiceName svc.ns svc.name
  if bare = "" then "" else "svc:" ++ bare

/-! ## serve package: desired service synthesis -/

/-- serve.IsOurLoadBalancerService. -/
def isOurLoadBalancerService (svc : KService) : Bool :=
  if svc.specType ≠ "LoadBalancer" then false
  else
    match svc.loadBalancerClassOf with
    | none => false
    | some c => c = loadBalancerClass

/-- serve.endpointSlicesForService: same namespace and the service-name label
matches. -/
def endpointSlicesForService (svc : KService) (all : List KEndpointSlice) :
    List KEndpointSlice :=
  all.filter (fun es =>
    es.ns = svc.ns ∧ labelGet es.labels labelServiceNameKey = svc.name)

/-- Explicit node-name condition of serve.isEndpointOnNode: the field is set
and equals this node. -/
def nodeNameMatches (ep : KEndpoint) (nodeName : String) : Bool :=
  match ep.nodeName with
  | some n => n = nodeName
  | none => false

/-- serve.isEndpointOnNode: explicit node-name match first; otherwise fall
back to pod-CIDR containment of the first endpoint address. -/
def isEndpointOnNode (ep : KEndpoint) (nodeName podCIDR : String) : Bool :=
  if nodeNameMatches ep nodeName then true
  else if podCIDR = "" then false
  else
    match ep.addresses with
    | [] => false
    | addr :: _ =>
      match parseIPv4 addr, parsePrefix4 podCIDR with
      | some ip, some cidr => cidrContains cidr ip
      | _, _ => false

/-- serve.localEndpoint: address plus the port-name table of its slice. -/
structure LocalEndpoint where
  address : String
  ports : List (String × Int)
  deriving DecidableEq

/-- Port-name table of one slice: name → number for every port with both
fields set. -/
def portByName (ports : List EndpointPort) : List (String × Int) :=
  ports.foldl
    (fun acc p =>
      match p.port, p.name with
      | some n, some nm => insertA acc nm n
      | _, _ => acc)
    []

/-- Endpoint walk of one slice: keep endpoints on this node that have an
address not seen before; `seen` threads across slices. -/
def collectSliceLocals (nodeName podCIDR : String) (pbn : List (String × Int)) :
    List KEndpoint → List String → List LocalEndpoint × List String
  | [], seen => ([], seen)
  | ep :: rest, seen =>
    if ¬ isEndpointOnNode ep nodeName podCIDR then
      collectSliceLocals nodeName podCIDR pbn rest seen
    else
      match ep.addresses with
      | [] => collectSliceLocals nodeName podCIDR pbn rest seen
      | addr :: _ =>
        if seen.contains addr then collectSliceLocals nodeName podCIDR pbn rest seen
        else
          let r := collectSliceLocals nodeName podCIDR pbn rest (addr :: seen)
          (⟨addr, pbn⟩ :: r.fst, r.snd)

/-- serve.localEndpointsForService. -/
def collectLocals (nodeName podCIDR : String) :
    List KEndpointSlice → List String → List LocalEndpoint
  | [], _ => []
  | es :: rest, seen =>
    let r := collectSliceLocals nodeName podCIDR (portByName es.ports) es.endpoints seen
    r.fst ++ collectLocals nodeName podCIDR rest r.snd

/-- serve.localEndpointsForService entry point. -/
def localEndpointsForService (nodeName podCIDR : String)
    (slices : List KEndpointSlice) : List LocalEndpoint :=
  collectLocals nodeName podCIDR slices []

/-- serve.resolvePort: numeric target ports directly, named ports via the
slice port table, otherwise 0. -/
def resolvePort (pbn : List (String × Int)) (p : ServicePort) : Int :=
  match p.targetPort with
  | .int n => n
  | .str s =>
    match lookupA pbn s with
    | some n => n
    | none => 0

/-- Go uint16 conversion of an int32 Service port. -/
def uint16of (n : Int) : Nat :=
  (n % 65536).toNat

/-- Go net.JoinHostPort. -/
def joinHostPort (host port : String) : String :=
  if host.toList.contains ':' then "[" ++ host ++ "]:" ++ port
  else host ++ ":" ++ port

/-- ipn.ServiceConfig TCP map: serve port → TCPForward backend string. -/
abbrev ServiceConfig := List (Nat × String)

/-- Loop body of buildServiceConfig: skip non-TCP ports and non-positive
resolved backend ports; record the forward under the uint16 serve port. -/
def tcpPortStep (first : LocalEndpoint) (acc : ServiceConfig) (p : ServicePort) :
    ServiceConfig :=
  if p.protocol ≠ "TCP" then acc
  else if resolvePort first.ports p ≤ 0 then acc
  else insertA acc (uint16of p.port)
    (joinHostPort first.address (toString (resolvePort first.ports p)))

/-- serve.buildServiceConfig: first local endpoint backs all TCP ports; each
declared TCP Service port with a positive resolved backend port becomes a
forward to address:backendPort; no resolved ports means no config. -/
def buildServiceConfig (svc : KService) (locals : List LocalEndpoint) :
    Option ServiceConfig :=
  match locals with
  | [] => none
  | first :: _ =>
    if svc.ports.foldl (tcpPortStep first) [] = [] then none
    else some (svc.ports.foldl (tcpPortStep first) [])

/-- Result of serve.BuildDesiredServices. -/
structure DesiredOut where
  desired : List (String × ServiceConfig)
  managed : List String
  deriving DecidableEq

/-- Loop body of BuildDesiredServices for one Service. -/
def desiredStep (nodeName podCIDR : String) (slices : List KEndpointSlice)
    (acc : DesiredOut) (svc : KService) : DesiredOut :=
  if ¬ isOurLoadBalancerService svc then acc
  else if svc.clusterIP = "" ∨ svc.clusterIP = "None" then acc
  else if localEndpointsForService nodeName podCIDR (endpointSlicesForService svc slices)
      = [] then acc
  else
    match buildServiceConfig svc
        (localEndpointsForService nodeName podCIDR (endpointSlicesForService svc slices)) with
    | none => acc
    | some cfg =>
      ⟨insertA acc.desired (tailscaleServiceName svc) cfg,
        acc.managed ++ [tailscaleServiceName svc]⟩

/-- serve.BuildDesiredServices: walk the Services; those of our load-balancer
class with a non-headless cluster IP, a local endpoint, and a non-empty
config are recorded under their Tailscale service name. -/
def buildDesiredServices (nodeName podCIDR : String) (services : List KService)
    (slices : List KEndpointSlice) : DesiredOut :=
  services.foldl (desiredStep nodeName podCIDR slices) ⟨[], []⟩

/-! ## Derived predicates used to state the claims -/

/-- Classification of one attempted route install: it failed and EnsureRoutes
classifies the failure as gateway-unreachable. -/
def unreachAdd (env : RouteEnv) (iface cidr via : String) : Bool :=
  match addRouteL env cidr via iface with
  | some e => isNetworkUnreachable e
  | none => false

/-- Classification of one attempted route install: it failed with an error
that is not gateway-unreachable (aborts the cycle). -/
def hardErrAdd (env : RouteEnv) (iface cidr via : String) : Bool :=
  match addRouteL env cidr via iface with
  | some e => ¬ isNetworkUnreachable e
  | none => false

/-- A RouteOp that mutated kernel state: a successful add or delete. -/
def isSuccessOp : RouteOp → Bool
  | .addAttempt _ _ res => res = none
  | .delAttempt _ res => res = none

/-- Local endpoints of one Service: its slices filtered to this node. -/
def svcLocals (nodeName podCIDR : String) (slices : List KEndpointSlice)
    (svc : KService) : List LocalEndpoint :=
  localEndpointsForService nodeName podCIDR (endpointSlicesForService svc slices)

/-- Declarative form of condition (d): some slice of the Service has an
endpoint on this node carrying at least one address. -/
def hasLocalBackend (nodeName podCIDR : String) (slices : List KEndpointSlice)
    (svc : KService) : Bool :=
  (endpointSlicesForService svc slices).any (fun es =>
    es.endpoints.any (fun ep => isEndpointOnNode ep nodeName podCIDR ∧ ep.addresses ≠ []))

/-- Declarative form of condition (e): some declared TCP port of the Service
resolves to a positive backend port against the given backend endpoint. -/
def resolvesSomeTCP (svc : KService) (first : LocalEndpoint) : Bool :=
  svc.ports.any (fun p => p.protocol = "TCP" ∧ 0 < resolvePort first.ports p)

/-- Condition (e) evaluated at the head of the local endpoint list, the
backend the code binds all ports to. -/
def firstLocalResolves (nodeName podCIDR : String) (slices : List KEndpointSlice)
    (svc : KService) : Bool :=
  match svcLocals nodeName podCIDR slices svc with
  | [] => false
  | first :: _ => resolvesSomeTCP svc first

/-- Conditions (a)-(e) under which a Service is synthesized, in declarative
form. -/
def svcQualifies (nodeName podCIDR : String) (slices : List KEndpointSlice)
    (svc : KService) : Bool :=
  decide (svc.specType = "LoadBalancer") &&
  decide (svc.loadBalancerClassOf = some loadBalancerClass) &&
  decide (svc.clusterIP ≠ "") && decide (svc.clusterIP ≠ "None") &&
  hasLocalBackend nodeName podCIDR slices svc &&
  firstLocalResolves nodeName podCIDR slices svc

/-- Modelled from the claim wording of C4 (not from the code): an endpoint is
local when its node name matches, or when the node name is absent and the
pod subnet contains its first address; with a node name present but
different, the claim deems the endpoint not local. -/
def claimEndpointLocal (ep : KEndpoint) (nodeName podCIDR : String) : Bool :=
  match ep.nodeName with
  | some n => n = nodeName
  | none =>
    if podCIDR = "" then false
    else
      match ep.addresses with
      | [] => false
      | addr :: _ =>
        match parseIPv4 addr, parsePrefix4 podCIDR with
        | some ip, some cidr => cidrContains cidr ip
        | _, _ => false

/-! ## Association-list lemmas -/

theorem lookupA_insertA_self {κ α : Type} [DecidableEq κ] (m : List (κ × α)) (k : κ) (v : α) :
    lookupA (insertA m k v) k = some v := by
  induction m with
  | nil => simp [insertA, lookupA]
  | cons kw rest ih =>
    obtain ⟨k0, w⟩ := kw
    by_cases h : k0 = k
    · simp [insertA, h, lookupA]
    · simp [insertA, h, lookupA, ih]

theorem lookupA_insertA_ne {κ α : Type} [DecidableEq κ] (m : List (κ × α)) (k key : κ) (v : α)
    (h : k ≠ key) : lookupA (insertA m k v) key = lookupA m key := by
  induction m with
  | nil => simp [insertA, lookupA, h]
  | cons kw rest ih =>
    obtain ⟨k0, w⟩ := kw
    by_cases h0 : k0 = k
    · subst h0
      simp [insertA, lookupA, h]
    · simp [insertA, h0, lookupA, ih]

theorem lookupA_eraseA_self {κ α : Type} [DecidableEq κ] (m : List (κ × α)) (k : κ) :
    lookupA (eraseA m k) k = none := by
  induction m with
  | nil => simp [eraseA, lookupA]
  | cons kw rest ih =>
    obtain ⟨k0, w⟩ := kw
    by_cases h0 : k0 = k
    · simp [eraseA, h0, ih]
    · simp [eraseA, h0, lookupA, ih]

theorem lookupA_eraseA_ne {κ α : Type} [DecidableEq κ] (m : List (κ × α)) (k key : κ)
    (h : k ≠ key) : lookupA (eraseA m k) key = lookupA m key := by
  induction m with
  | nil => simp [eraseA, lookupA]
  | cons kw rest ih =>
    obtain ⟨k0, w⟩ := kw
    by_cases h0 : k0 = k
    · subst h0
      simp [eraseA, lookupA, h, ih]
    · simp [eraseA, h0, lookupA, ih]

/-! ## C1: cert authorization exactness -/

theorem certTableStep_empty_key (acc : CertTable) (p : String × List String) :
    lookupA (certTableStep acc p) "" = lookupA acc "" := by
  unfold certTableStep
  by_cases hd : normalizeDomain p.fst = ""
  · rw [if_pos hd]
  · rw [if_neg hd]
    by_cases hs : p.snd.filter (fun ip => ip ≠ "") = []
    · rw [if_pos hs]
    · rw [if_neg hs]
      exact lookupA_insertA_ne _ _ _ _ hd

theorem buildCertTable_no_empty_key (arg : List (String × List String)) :
    lookupA (buildCertTable arg) "" = none := by
  suffices h : ∀ acc : CertTable, lookupA acc "" = none →
      lookupA (arg.foldl certTableStep acc) "" = none by
    exact h [] rfl
  induction arg with
  | nil => intro acc hacc; simpa using hacc
  | cons p rest ih =>
    intro acc hacc
    simp only [List.foldl_cons]
    exact ih _ ((certTableStep_empty_key acc p).trans hacc)

/-- C1: for every sequence of SetAllowedDomains calls, AllowedCertDomain
answers true exactly when the caller IP is listed under the normalized domain
in the table built from the argument of the most recent call; entries of
earlier tables are irrelevant because each call replaces the table wholesale. -/
theorem certAuthorizer_exactness
    (history : List (List (String × List String)))
    (lastArg : List (String × List String)) (ip domain : String) :
    allowedCertDomain ((history ++ [lastArg]).foldl setAllowedDomains []) ip domain = true ↔
      ∃ ips, lookupA (buildCertTable lastArg) (normalizeDomain domain) = some ips ∧ ip ∈ ips := by
  have hfold : (history ++ [lastArg]).foldl setAllowedDomains [] = buildCertTable lastArg := by
    simp [setAllowedDomains]
  rw [hfold]
  unfold allowedCertDomain
  by_cases hd : normalizeDomain domain = ""
  · rw [hd]
    simp only [if_pos rfl, buildCertTable_no_empty_key]
    constructor
    · intro h; cases h
    · rintro ⟨ips, hips, -⟩; cases hips
  · simp only [if_neg hd]
    cases h : lookupA (buildCertTable lastArg) (normalizeDomain domain) with
    | none =>
      constructor
      · intro hfalse; cases hfalse
      · rintro ⟨ips, hips, -⟩; cases hips
    | some ips =>
      constructor
      · intro hc
        exact ⟨ips, rfl, by simpa using hc⟩
      · rintro ⟨ips2, hips2, hmem⟩
        cases hips2
        simpa using hmem

/-! ## C3: self-reconcile gating in the controller -/

/-- C3: a node event whose non-empty pod CIDR equals the cached last-applied
value does not invoke the pipeline and leaves the cache unchanged; a
differing non-empty CIDR invokes the pipeline, and the cache is updated to
the new CIDR exactly on pipeline success, staying at the old value on any
failure. -/
theorem controller_reconcile_gate (last podCIDR : String) (res : PipelineResult)
    (hne : podCIDR ≠ "") :
    (podCIDR = last → maybeReconcileFromNode last podCIDR res = (last, false)) ∧
    (podCIDR ≠ last →
      (maybeReconcileFromNode last podCIDR res).snd = true ∧
      (res = .success → (maybeReconcileFromNode last podCIDR res).fst = podCIDR) ∧
      (∀ msg, res = .failure msg → (maybeReconcileFromNode last podCIDR res).fst = last)) := by
  unfold maybeReconcileFromNode
  rw [if_neg hne]
  constructor
  · intro heq
    rw [if_pos heq]
  · intro hneq
    rw [if_neg hneq]
    cases res with
    | success =>
      refine ⟨rfl, fun _ => rfl, fun msg h => ?_⟩
      simp at h
    | failure m =>
      refine ⟨rfl, fun h => ?_, fun msg _ => rfl⟩
      simp at h

theorem controller_reconcile_gate_witness :
    maybeReconcileFromNode "10.99.0.0/24" "10.99.0.0/24" .success = ("10.99.0.0/24", false) ∧
    (maybeReconcileFromNode "" "10.99.0.0/24" (.failure "advertise failed")).snd = true ∧
    (maybeReconcileFromNode "" "10.99.0.0/24" (.failure "advertise failed")).fst = "" := by
  refine ⟨(controller_reconcile_gate "10.99.0.0/24" "10.99.0.0/24" .success (by decide)).1 rfl, ?_, ?_⟩
  · exact ((controller_reconcile_gate "" "10.99.0.0/24" (.failure "advertise failed")
      (by decide)).2 (by decide)).1
  · exact ((controller_reconcile_gate "" "10.99.0.0/24" (.failure "advertise failed")
      (by decide)).2 (by decide)).2.2 "advertise failed" rfl

/-! ## C5: token TTL clamping -/

/-- C5 counterexample: a PUT token request with TTL header 0 is rejected
with status 400 and no token is stored, contradicting the claim that a
request of 0 yields a token of TTL 1 rather than being rejected. -/
theorem token_ttl_counterexample :
    (servePutToken [] 0 (some "746f6b656e") "PUT" "0").fst.status = 400 ∧
    (servePutToken [] 0 (some "746f6b656e") "PUT" "0").snd = [] := by
  decide

/-- C5 (amended): the HTTP token-issuance handler accepts any parsed TTL of
at least 1, clamping values above 21600 down to 21600 and recording expiry
now + clamped TTL; parsed TTL values below 1 are rejected with 400 and the
store is unchanged. The underlying TokenStore.Create clamps into [1, 21600]
from both sides. -/
theorem tokenClamp_eq (n : Int) : tokenClamp n = max 1 (min n 21600) := by
  simp only [tokenClamp]
  rw [Int.min_def, Int.max_def]
  split_ifs <;> omega

theorem token_ttl_clamp (store : TokenMap) (now : Int) (tok s : String) (ttl : Int)
    (hparse : atoi s = some ttl) :
    (1 ≤ ttl → servePutToken store now (some tok) "PUT" s =
      (⟨200, tok⟩, insertA store tok (now + min ttl 21600))) ∧
    (ttl < 1 → servePutToken store now (some tok) "PUT" s =
      (⟨400, "invalid TTL header"⟩, store)) ∧
    (∀ n : Int, tokenCreate store now tok n = insertA store tok (now + max 1 (min n 21600))) := by
  have hs : s ≠ "" := by
    intro h
    subst h
    simp [atoi, digitsToNat?] at hparse
  refine ⟨?_, ?_, ?_⟩
  · intro h1
    unfold servePutToken
    rw [if_neg (by decide), if_neg hs, hparse]
    simp only [if_neg (by omega : ¬ ttl < 1)]
    unfold tokenCreate
    rw [tokenClamp_eq]
    have : max 1 (min (if ttl > 21600 then (21600 : Int) else ttl) 21600) = min ttl 21600 := by
      rw [Int.min_def, Int.min_def, Int.max_def]
      split_ifs <;> omega
    rw [this]
  · intro h1
    unfold servePutToken
    rw [if_neg (by decide), if_neg hs, hparse]
    simp only [if_pos h1]
  · intro n
    unfold tokenCreate
    rw [tokenClamp_eq]

theorem token_ttl_clamp_witness :
    servePutToken [] 100 (some "deadbeef") "PUT" "999999" =
      (⟨200, "deadbeef"⟩, [("deadbeef", 21700)]) ∧
    servePutToken [] 100 (some "deadbeef") "PUT" "-3" =
      (⟨400, "invalid TTL header"⟩, []) ∧
    tokenCreate [] 100 "deadbeef" 0 = [("deadbeef", 101)] := by
  refine ⟨?_, ?_, ?_⟩
  · have h := (token_ttl_clamp [] 100 "deadbeef" "999999" 999999 (by decide)).1 (by decide)
    rw [h]
    decide
  · exact (token_ttl_clamp [] 100 "deadbeef" "-3" (-3) (by decide)).2.1 (by decide)
  · have h := (token_ttl_clamp [] 100 "deadbeef" "1" 1 (by decide)).2.2 0
    rw [h]
    decide

/-! ## Trim and normalization lemmas -/

theorem dropWhile_rdropWhile_self (p : Char → Bool) (A : List Char)
    (h : A.dropWhile p = A) : (A.rdropWhile p).dropWhile p = A.rdropWhile p := by
  cases hB : A.rdropWhile p with
  | nil => simp
  | cons b bs =>
    obtain ⟨t, ht⟩ := List.rdropWhile_prefix p A
    rw [hB] at ht
    have hb : ¬ p b = true := by
      intro hpb
      have hA : A.dropWhile p = A := h
      rw [← ht, List.cons_append, List.dropWhile_cons_of_pos hpb] at hA
      have hlen := congrArg List.length hA
      have hle : ((bs ++ t).dropWhile p).length ≤ (bs ++ t).length :=
        (List.dropWhile_sublist p).length_le
      simp only [List.length_cons] at hlen
      omega
    rw [List.dropWhile_cons_of_neg hb]

theorem trimChars_idem (p : Char → Bool) (l : List Char) :
    trimChars p (trimChars p l) = trimChars p l := by
  unfold trimChars
  rw [dropWhile_rdropWhile_self p _ (List.dropWhile_idempotent p l),
    List.rdropWhile_idempotent]

theorem trimSpace_idem (s : String) : trimSpace (trimSpace s) = trimSpace s := by
  unfold trimSpace
  rw [show (String.mk (trimChars isSpaceChar s.toList)).toList
      = trimChars isSpaceChar s.toList from rfl, trimChars_idem]

theorem normalizeDomain_trimSpace (s : String) :
    normalizeDomain (trimSpace s) = normalizeDomain s := by
  unfold normalizeDomain
  rw [trimSpace_idem]

theorem normalizeDomain_of_trim_empty (s : String) (h : trimSpace s = "") :
    normalizeDomain s = "" := by
  unfold normalizeDomain
  rw [h]
  rfl

/-! ## C8: certificate endpoint status codes -/

/-- C8: response statuses of GET on the cert endpoint: 401 on a missing or
invalid token; else 404 when no authorizer is configured; else 400 when the
domain parameter is missing or its trimmed, lowercased form is not
FQDN-shaped; else 403 when the caller address is not authorized for the
normalized domain; else 502 when the upstream cert fetch fails; else 200
with the certificate and key PEM. -/
theorem cert_endpoint_status_codes (store : TokenMap) (now : Int)
    (authorizer : Option CertTable) (certPair : String → Option (String × String))
    (tokenHeader domainParam remoteAddr : String) :
    (tokenHeader = "" ∨ tokenValid store now tokenHeader = false →
      (serveGetCert store now authorizer certPair "GET" tokenHeader domainParam remoteAddr).status
        = 401) ∧
    (tokenHeader ≠ "" → tokenValid store now tokenHeader = true →
      (authorizer = none →
        (serveGetCert store now authorizer certPair "GET" tokenHeader domainParam remoteAddr).status
          = 404) ∧
      ∀ tbl, authorizer = some tbl →
        ((domainParam = "" ∨ validFQDN (normalizeDomain domainParam) = false →
          (serveGetCert store now authorizer certPair "GET" tokenHeader domainParam remoteAddr).status
            = 400) ∧
        (validFQDN (normalizeDomain domainParam) = true →
          (allowedCertDomain tbl (callerIPof remoteAddr) (normalizeDomain domainParam) = false →
            (serveGetCert store now authorizer certPair "GET" tokenHeader domainParam remoteAddr).status
              = 403) ∧
          (allowedCertDomain tbl (callerIPof remoteAddr) (normalizeDomain domainParam) = true →
            (certPair (normalizeDomain domainParam) = none →
              (serveGetCert store now authorizer certPair "GET" tokenHeader domainParam remoteAddr).status
                = 502) ∧
            ∀ certPEM keyPEM, certPair (normalizeDomain domainParam) = some (certPEM, keyPEM) →
              serveGetCert store now authorizer certPair "GET" tokenHeader domainParam remoteAddr
                = ⟨200, certPEM ++ "\n" ++ keyPEM⟩)))) := by
  constructor
  · intro htok
    rcases htok with h | h
    · simp [serveGetCert, h]
    · simp [serveGetCert, h]
  · intro htok hvalid
    have htokC : ¬ (tokenHeader = "" ∨ ¬ tokenValid store now tokenHeader = true) := by
      push_neg
      exact ⟨htok, by simp [hvalid]⟩
    constructor
    · intro hauth
      simp [serveGetCert, htokC, hauth, htok, hvalid]
    · intro tbl hauth
      have hfqdn_trim : trimSpace domainParam = "" →
          validFQDN (normalizeDomain domainParam) = false := by
        intro h
        rw [normalizeDomain_of_trim_empty _ h]
        rfl
      constructor
      · intro hbad
        by_cases htr : trimSpace domainParam = ""
        · simp [serveGetCert, htokC, hauth, htok, hvalid, htr]
        · have hvf : validFQDN (normalizeDomain (trimSpace domainParam)) = false := by
            rw [normalizeDomain_trimSpace]
            rcases hbad with h | h
            · exact absurd (by rw [h]; rfl) htr
            · exact h
          simp [serveGetCert, htokC, hauth, htok, hvalid, htr, hvf]
      · intro hok
        have htr : trimSpace domainParam ≠ "" := by
          intro h
          rw [hfqdn_trim h] at hok
          cases hok
        constructor
        · intro hdeny
          simp [serveGetCert, htokC, hauth, htok, hvalid, htr, normalizeDomain_trimSpace, hok, hdeny]
        · intro hallow
          constructor
          · intro hup
            simp [serveGetCert, htokC, hauth, htok, hvalid, htr, normalizeDomain_trimSpace, hok, hallow, hup]
          · intro certPEM keyPEM hup
            simp [serveGetCert, htokC, hauth, htok, hvalid, htr, normalizeDomain_trimSpace, hok, hallow, hup]

theorem cert_endpoint_status_codes_witness :
    serveGetCert [("tok", 10)] 5 (some [("web.magic.ts.net", ["10.99.0.5"])])
      (fun d => if d = "web.magic.ts.net" then some ("CERT", "KEY") else none)
      "GET" "tok" " Web.Magic.TS.net " "10.99.0.5:41000" = ⟨200, "CERT" ++ "\n" ++ "KEY"⟩ ∧
    (serveGetCert [("tok", 10)] 20 (some [("web.magic.ts.net", ["10.99.0.5"])])
      (fun _ => none) "GET" "tok" "web.magic.ts.net" "10.99.0.5:41000").status = 401 ∧
    (serveGetCert [("tok", 10)] 5 none (fun _ => none)
      "GET" "tok" "web.magic.ts.net" "10.99.0.5:41000").status = 404 ∧
    (serveGetCert [("tok", 10)] 5 (some []) (fun _ => none)
      "GET" "tok" "nodot" "10.99.0.5:41000").status = 400 ∧
    (serveGetCert [("tok", 10)] 5 (some [("web.magic.ts.net", ["10.99.0.5"])])
      (fun _ => none) "GET" "tok" "web.magic.ts.net" "10.99.0.8:41000").status = 403 ∧
    (serveGetCert [("tok", 10)] 5 (some [("web.magic.ts.net", ["10.99.0.5"])])
      (fun _ => none) "GET" "tok" "web.magic.ts.net" "10.99.0.5:41000").status = 502 := by
  refine ⟨?_, ?_, ?_, ?_, ?_, ?_⟩
  · exact ((((cert_endpoint_status_codes [("tok", 10)] 5 _ _ "tok" " Web.Magic.TS.net "
      "10.99.0.5:41000").2 (by decide) (by decide)).2 _ rfl).2 (by decide)).2 (by decide)
      |>.2 "CERT" "KEY" (by decide)
  · exact (cert_endpoint_status_codes [("tok", 10)] 20 _ _ "tok" "web.magic.ts.net"
      "10.99.0.5:41000").1 (Or.inr (by decide))
  · exact ((cert_endpoint_status_codes [("tok", 10)] 5 none _ "tok" "web.magic.ts.net"
      "10.99.0.5:41000").2 (by decide) (by decide)).1 rfl
  · exact (((cert_endpoint_status_codes [("tok", 10)] 5 (some []) _ "tok" "nodot"
      "10.99.0.5:41000").2 (by decide) (by decide)).2 [] rfl).1 (Or.inr (by decide))
  · exact ((((cert_endpoint_status_codes [("tok", 10)] 5 _ _ "tok" "web.magic.ts.net"
      "10.99.0.8:41000").2 (by decide) (by decide)).2 _ rfl).2 (by decide)).1 (by decide)
  · exact (((((cert_endpoint_status_codes [("tok", 10)] 5 _ _ "tok" "web.magic.ts.net"
      "10.99.0.5:41000").2 (by decide) (by decide)).2 _ rfl).2 (by decide)).2 (by decide)).1 rfl

/-! ## C9: service naming -/

theorem collapseBad_good (l : List Char) :
    ∀ (b : Bool), ∀ c ∈ collapseBad b l, goodLabelChar c = true := by
  induction l with
  | nil =>
    intro b c hc
    simp [collapseBad] at hc
  | cons a as ih =>
    intro b c hc
    by_cases ha : goodLabelChar a
    · rw [collapseBad, if_pos ha] at hc
      rcases List.mem_cons.mp hc with h | h
      · rw [h]; exact ha
      · exact ih false c h
    · rw [collapseBad, if_neg ha] at hc
      by_cases hb : b = true
      · rw [if_pos hb] at hc
        exact ih true c hc
      · rw [if_neg hb] at hc
        rcases List.mem_cons.mp hc with h | h
        · rw [h]; rfl
        · exact ih true c h

theorem mem_of_mem_trimChars (p : Char → Bool) (l : List Char) (c : Char)
    (h : c ∈ trimChars p l) : c ∈ l := by
  unfold trimChars at h
  exact (List.dropWhile_sublist p).mem ((List.rdropWhile_prefix p _).sublist.mem h)

theorem length_trimChars_le (p : Char → Bool) (l : List Char) :
    (trimChars p l).length ≤ l.length := by
  unfold trimChars
  exact le_trans (List.rdropWhile_prefix p _).sublist.length_le
    (List.dropWhile_sublist p).length_le

theorem dnsLabelSanitize_good (s : String) :
    ∀ c ∈ (dnsLabelSanitize s).toList, goodLabelChar c = true := by
  intro c hc
  unfold dnsLabelSanitize at hc
  simp only at hc
  rw [show ∀ l : List Char, (String.mk l).toList = l from fun _ => rfl] at hc
  split_ifs at hc with h
  · have h1 := mem_of_mem_trimChars _ _ _ hc
    have h2 := List.take_subset 63 _ h1
    have h3 := mem_of_mem_trimChars _ _ _ h2
    exact collapseBad_good _ false c h3
  · have h3 := mem_of_mem_trimChars _ _ _ hc
    exact collapseBad_good _ false c h3

theorem dnsLabelSanitize_len (s : String) :
    (dnsLabelSanitize s).toList.length ≤ 63 := by
  unfold dnsLabelSanitize
  simp only
  rw [show ∀ l : List Char, (String.mk l).toList = l from fun _ => rfl]
  split_ifs with h
  · exact le_trans (length_trimChars_le _ _) (by simp)
  · omega

/-- C9: the external service name comes from the (trimmed) per-Service
annotation when one is present, and otherwise is the sanitized default
derived from namespace and name; the derived default consists only of
lowercase alphanumerics and hyphens, has at most 63 characters, and is never
empty. -/
theorem service_naming (svc : KService) :
    (annotValue svc ≠ "" →
      tailscaleServiceName svc =
        (if trimSpace (annotValue svc) = "" then ""
         else "svc:" ++ trimSpace (annotValue svc))) ∧
    (annotValue svc = "" →
      tailscaleServiceName svc = "svc:" ++ defaultServiceName svc.ns svc.name) ∧
    (∀ c ∈ (defaultServiceName svc.ns svc.name).toList, goodLabelChar c = true) ∧
    (defaultServiceName svc.ns svc.name).toList.length ≤ 63 ∧
    defaultServiceName svc.ns svc.name ≠ "" := by
  have hne : defaultServiceName svc.ns svc.name ≠ "" := by
    simp only [defaultServiceName]
    split_ifs with h
    · decide
    · exact h
  refine ⟨?_, ?_, ?_, ?_, hne⟩
  · intro hann
    simp only [tailscaleServiceName]
    rw [if_pos hann]
  · intro hann
    simp only [tailscaleServiceName]
    rw [if_neg (show ¬ annotValue svc ≠ "" from by simp [hann]), if_neg hne]
  · intro c hc
    simp only [defaultServiceName] at hc
    split_ifs at hc with h
    · rw [show ("k8s-svc" : String).toList = ['k', '8', 's', '-', 's', 'v', 'c'] from rfl] at hc
      simp only [List.mem_cons, List.not_mem_nil, or_false] at hc
      rcases hc with h1 | h1 | h1 | h1 | h1 | h1 | h1 <;> subst h1 <;> decide
    · exact dnsLabelSanitize_good _ c hc
  · simp only [defaultServiceName]
    split_ifs with h
    · decide
    · exact dnsLabelSanitize_len _

theorem service_naming_witness :
    tailscaleServiceName ⟨"default", "web", [(serviceNameAnnotKey, " my-name ")],
        "LoadBalancer", some loadBalancerClass, "10.0.0.1", []⟩ = "svc:my-name" ∧
    tailscaleServiceName ⟨"default", "Web_App", [], "LoadBalancer",
        some loadBalancerClass, "10.0.0.1", []⟩ = "svc:k8s-default-web-app" ∧
    defaultServiceName "default" "Web_App" ≠ "" := by
  refine ⟨?_, ?_, ?_⟩
  · have h := (service_naming ⟨"default", "web", [(serviceNameAnnotKey, " my-name ")],
        "LoadBalancer", some loadBalancerClass, "10.0.0.1", []⟩).1 (by decide)
    rw [h]
    decide
  · have h := (service_naming ⟨"default", "Web_App", [], "LoadBalancer",
        some loadBalancerClass, "10.0.0.1", []⟩).2.1 (by decide)
    rw [h]
    decide
  · exact (service_naming ⟨"default", "Web_App", [], "LoadBalancer",
        some loadBalancerClass, "10.0.0.1", []⟩).2.2.2.2

/-! ## C7: firewall rule-set purity -/

theorem masqSetupRules_factors (podCIDR b t : String) (port : Int) (n : MasqNorm)
    (h : masqNormOf podCIDR b t port = some n) :
    masqSetupRules podCIDR b t port = .ok (rulesFromNorm n) := by
  unfold masqNormOf at h
  cases hp : parsePrefix4 podCIDR with
  | none =>
    rw [hp] at h
    dsimp only at h
    cases h
  | some p =>
    rw [hp] at h
    dsimp only at h
    by_cases hb : 32 < p.bits
    · rw [if_pos hb] at h; cases h
    · rw [if_neg hb] at h
      injection h with h
      subst h
      by_cases hport : 0 < port
      · simp [masqSetupRules, rulesFromNorm, hp, hb, hport]
      · simp [masqSetupRules, rulesFromNorm, hp, hb, hport]

theorem rulesFromNorm_inj (n1 n2 : MasqNorm)
    (h : rulesFromNorm n1 = rulesFromNorm n2) : n1 = n2 := by
  obtain ⟨m1, w1, pb1, pt1, q1⟩ := n1
  obtain ⟨m2, w2, pb2, pt2, q2⟩ := n2
  cases q1 <;> cases q2 <;>
    simp [rulesFromNorm, masqRuleExprs, metaRuleExprs] at h <;> simp_all

/-- C7 (amended): the rule set Setup constructs is a deterministic function
of the four inputs: for inputs whose pod CIDR parses, the construction
succeeds and factors through the normalized inputs (masked network and mask
of the subnet, the two 16-byte padded interface names, and the two low-order
port bytes when the port is positive); two invocations produce byte-identical
rule sets exactly when their normalized inputs coincide, and the metadata
DNAT chain is present exactly when the redirect port is positive. Distinct
raw inputs with equal normalizations (host bits in the CIDR, interface names
agreeing on their first 16 bytes, ports equal modulo 65536) yield identical
rule sets, refuting the claim that any change of one input changes the
output. -/
theorem firewall_purity (cidr1 b1 t1 : String) (p1 : Int) (cidr2 b2 t2 : String) (p2 : Int)
    (n1 n2 : MasqNorm)
    (h1 : masqNormOf cidr1 b1 t1 p1 = some n1)
    (h2 : masqNormOf cidr2 b2 t2 p2 = some n2) :
    masqSetupRules cidr1 b1 t1 p1 = .ok (rulesFromNorm n1) ∧
    (masqSetupRules cidr1 b1 t1 p1 = masqSetupRules cidr2 b2 t2 p2 ↔ n1 = n2) ∧
    ((∃ ch ∈ (rulesFromNorm n1).chains, ch.name = "metadata-redirect") ↔ 0 < p1) := by
  refine ⟨masqSetupRules_factors _ _ _ _ _ h1, ?_, ?_⟩
  · rw [masqSetupRules_factors _ _ _ _ _ h1, masqSetupRules_factors _ _ _ _ _ h2]
    constructor
    · intro h
      injection h with h
      exact rulesFromNorm_inj _ _ h
    · intro h
      rw [h]
  · have hpb : n1.portBytes = if 0 < p1 then some (portBytesOf p1) else none := by
      unfold masqNormOf at h1
      cases hp : parsePrefix4 cidr1 with
      | none =>
        rw [hp] at h1
        dsimp only at h1
        cases h1
      | some p =>
        rw [hp] at h1
        dsimp only at h1
        by_cases hb : 32 < p.bits
        · rw [if_pos hb] at h1; cases h1
        · rw [if_neg hb] at h1
          injection h1 with h1
          subst h1
          rfl
    by_cases hport : 0 < p1
    · have hq : n1.portBytes = some (portBytesOf p1) := by rw [hpb, if_pos hport]
      constructor
      · intro _; exact hport
      · intro _
        refine ⟨⟨"metadata-redirect", "nat", "prerouting", -100⟩, ?_, rfl⟩
        simp [rulesFromNorm, hq]
    · have hq : n1.portBytes = none := by rw [hpb, if_neg hport]
      constructor
      · rintro ⟨ch, hmem, hname⟩
        simp [rulesFromNorm, hq] at hmem
        rw [hmem] at hname
        exact absurd hname (by decide)
      · intro h; exact absurd h hport

theorem firewall_purity_counterexample :
    masqSetupRules "10.99.0.0/24" "cni0" "tailscale0" 4160 =
      masqSetupRules "10.99.0.5/24" "cni0" "tailscale0" 4160 ∧
    ("10.99.0.0/24" : String) ≠ "10.99.0.5/24" := by
  decide

theorem firewall_purity_witness :
    masqSetupRules "10.99.0.0/24" "cni0" "tailscale0" 4160 =
      .ok (rulesFromNorm ⟨[255, 255, 255, 0], [10, 99, 0, 0],
        padIfname "cni0", padIfname "tailscale0", some [16, 64]⟩) ∧
    (∃ ch ∈ (rulesFromNorm ⟨[255, 255, 255, 0], [10, 99, 0, 0],
        padIfname "cni0", padIfname "tailscale0", some [16, 64]⟩).chains,
      ch.name = "metadata-redirect") := by
  have h := firewall_purity "10.99.0.0/24" "cni0" "tailscale0" 4160
    "10.99.0.0/24" "cni0" "tailscale0" 4160
    ⟨[255, 255, 255, 0], [10, 99, 0, 0], padIfname "cni0", padIfname "tailscale0", some [16, 64]⟩
    ⟨[255, 255, 255, 0], [10, 99, 0, 0], padIfname "cni0", padIfname "tailscale0", some [16, 64]⟩
    (by decide) (by decide)
  exact ⟨h.1, h.2.2.mpr (by decide)⟩

/-! ## C4: service exposure synthesis -/

theorem insertA_ne_nil {κ α : Type} [DecidableEq κ] (m : List (κ × α)) (k : κ) (v : α) :
    insertA m k v ≠ [] := by
  cases m with
  | nil => simp [insertA]
  | cons kw rest =>
    obtain ⟨k0, w⟩ := kw
    by_cases h : k0 = k <;> simp [insertA, h]

theorem isOur_iff (svc : KService) :
    isOurLoadBalancerService svc = true ↔
      (svc.specType = "LoadBalancer" ∧ svc.loadBalancerClassOf = some loadBalancerClass) := by
  unfold isOurLoadBalancerService
  by_cases h : svc.specType = "LoadBalancer"
  · rw [if_neg (by simp [h])]
    cases hc : svc.loadBalancerClassOf with
    | none => simp [h, hc]
    | some c => simp [h, hc]
  · rw [if_pos (by simp [h])]
    simp [h]

theorem tcpFold_ne_nil (first : LocalEndpoint) (ports : List ServicePort) :
    ∀ acc : ServiceConfig, acc ≠ [] → ports.foldl (tcpPortStep first) acc ≠ [] := by
  induction ports with
  | nil => intro acc h; simpa using h
  | cons p rest ih =>
    intro acc h
    simp only [List.foldl_cons]
    apply ih
    unfold tcpPortStep
    split_ifs
    · exact h
    · exact h
    · exact insertA_ne_nil _ _ _

theorem tcpFold_nil_iff (first : LocalEndpoint) (ports : List ServicePort) :
    ports.foldl (tcpPortStep first) [] = [] ↔
      ∀ p ∈ ports, ¬(p.protocol = "TCP" ∧ 0 < resolvePort first.ports p) := by
  induction ports with
  | nil => simp
  | cons p rest ih =>
    simp only [List.foldl_cons, List.mem_cons]
    by_cases h1 : p.protocol = "TCP"
    · by_cases h2 : 0 < resolvePort first.ports p
      · refine iff_of_false ?_ ?_
        · rw [show tcpPortStep first [] p = insertA [] (uint16of p.port)
              (joinHostPort first.address (toString (resolvePort first.ports p))) by
            unfold tcpPortStep
            rw [if_neg (by simp [h1]), if_neg (by omega)]]
          exact tcpFold_ne_nil _ _ _ (insertA_ne_nil _ _ _)
        · intro hR
          exact (hR p (Or.inl rfl)) ⟨h1, h2⟩
      · rw [show tcpPortStep first [] p = [] by
          unfold tcpPortStep
          rw [if_neg (by simp [h1]), if_pos (by omega)], ih]
        constructor
        · intro h q hq
          rcases hq with rfl | hq
          · rintro ⟨-, hpos⟩
            exact h2 hpos
          · exact h q hq
        · intro h q hq
          exact h q (Or.inr hq)
    · rw [show tcpPortStep first [] p = [] by
        unfold tcpPortStep
        rw [if_pos (by simp [h1])], ih]
      constructor
      · intro h q hq
        rcases hq with rfl | hq
        · rintro ⟨hT, -⟩
          exact h1 hT
        · exact h q hq
      · intro h q hq
        exact h q (Or.inr hq)

theorem buildServiceConfig_cons_none_iff (svc : KService) (first : LocalEndpoint)
    (rest : List LocalEndpoint) :
    buildServiceConfig svc (first :: rest) = none ↔ resolvesSomeTCP svc first = false := by
  simp only [buildServiceConfig]
  by_cases h : svc.ports.foldl (tcpPortStep first) [] = []
  · rw [if_pos h]
    rw [tcpFold_nil_iff] at h
    simp only [true_iff]
    unfold resolvesSomeTCP
    rw [List.any_eq_false]
    intro p hp
    simp only [decide_eq_true_eq]
    exact fun hc => (h p hp) ⟨hc.1, hc.2⟩
  · rw [if_neg h]
    refine iff_of_false (by simp) ?_
    rw [tcpFold_nil_iff] at h
    push_neg at h
    obtain ⟨p, hp, hq⟩ := h
    intro hfalse
    unfold resolvesSomeTCP at hfalse
    rw [List.any_eq_false] at hfalse
    have := hfalse p hp
    simp only [decide_eq_true_eq] at this
    exact this ⟨hq.1, hq.2⟩

theorem cSL_not_on (n pc : String) (pbn : List (String × Int)) (ep : KEndpoint)
    (rest : List KEndpoint) (seen : List String)
    (h1 : ¬ isEndpointOnNode ep n pc = true) :
    collectSliceLocals n pc pbn (ep :: rest) seen = collectSliceLocals n pc pbn rest seen := by
  rw [collectSliceLocals, if_pos h1]

theorem cSL_no_addr (n pc : String) (pbn : List (String × Int)) (ep : KEndpoint)
    (rest : List KEndpoint) (seen : List String)
    (h1 : isEndpointOnNode ep n pc = true) (ha : ep.addresses = []) :
    collectSliceLocals n pc pbn (ep :: rest) seen = collectSliceLocals n pc pbn rest seen := by
  rw [collectSliceLocals, if_neg (by simp [h1]), ha]

theorem cSL_seen (n pc : String) (pbn : List (String × Int)) (ep : KEndpoint)
    (rest : List KEndpoint) (seen : List String) (a : String) (tl : List String)
    (h1 : isEndpointOnNode ep n pc = true) (ha : ep.addresses = a :: tl)
    (h2 : seen.contains a = true) :
    collectSliceLocals n pc pbn (ep :: rest) seen = collectSliceLocals n pc pbn rest seen := by
  rw [collectSliceLocals, if_neg (by simp [h1]), ha]
  dsimp only
  rw [if_pos h2]

theorem cSL_new (n pc : String) (pbn : List (String × Int)) (ep : KEndpoint)
    (rest : List KEndpoint) (seen : List String) (a : String) (tl : List String)
    (h1 : isEndpointOnNode ep n pc = true) (ha : ep.addresses = a :: tl)
    (h2 : ¬ seen.contains a = true) :
    collectSliceLocals n pc pbn (ep :: rest) seen =
      (⟨a, pbn⟩ :: (collectSliceLocals n pc pbn rest (a :: seen)).fst,
       (collectSliceLocals n pc pbn rest (a :: seen)).snd) := by
  rw [collectSliceLocals, if_neg (by simp [h1]), ha]
  dsimp only
  rw [if_neg h2]

theorem collectSliceLocals_fst_nil_iff (n pc : String) (pbn : List (String × Int)) :
    ∀ (eps : List KEndpoint) (seen : List String),
      (collectSliceLocals n pc pbn eps seen).fst = [] ↔
        ∀ ep ∈ eps, isEndpointOnNode ep n pc = true →
          ∀ a rest, ep.addresses = a :: rest → seen.contains a = true := by
  intro eps
  induction eps with
  | nil => simp [collectSliceLocals]
  | cons ep rest ih =>
    intro seen
    by_cases h1 : isEndpointOnNode ep n pc = true
    · cases ha : ep.addresses with
      | nil =>
        rw [cSL_no_addr n pc pbn ep rest seen h1 ha, ih]
        constructor
        · intro h q hq hon a r haddr
          rcases List.mem_cons.mp hq with rfl | hq
          · rw [ha] at haddr
            cases haddr
          · exact h q hq hon a r haddr
        · intro h q hq hon a r haddr
          exact h q (List.mem_cons.mpr (Or.inr hq)) hon a r haddr
      | cons a rest' =>
        by_cases h2 : seen.contains a = true
        · rw [cSL_seen n pc pbn ep rest seen a rest' h1 ha h2, ih]
          constructor
          · intro h q hq
            rcases List.mem_cons.mp hq with rfl | hq
            · intro _ a' r' haddr
              rw [ha] at haddr
              injection haddr with haddr1 haddr2
              rw [← haddr1]
              exact h2
            · exact h q hq
          · intro h q hq
            exact h q (List.mem_cons.mpr (Or.inr hq))
        · refine iff_of_false ?_ ?_
          · rw [cSL_new n pc pbn ep rest seen a rest' h1 ha h2]
            simp
          · intro h
            exact h2 (h ep (List.mem_cons_self _ _) h1 a rest' ha)
    · rw [cSL_not_on n pc pbn ep rest seen h1, ih]
      constructor
      · intro h q hq
        rcases List.mem_cons.mp hq with rfl | hq
        · intro hon
          exact absurd hon h1
        · exact h q hq
      · intro h q hq
        exact h q (List.mem_cons.mpr (Or.inr hq))

theorem collectSliceLocals_snd_of_fst_nil (n pc : String) (pbn : List (String × Int)) :
    ∀ (eps : List KEndpoint) (seen : List String),
      (collectSliceLocals n pc pbn eps seen).fst = [] →
      (collectSliceLocals n pc pbn eps seen).snd = seen := by
  intro eps
  induction eps with
  | nil => intro seen _; rfl
  | cons ep rest ih =>
    intro seen h
    by_cases h1 : isEndpointOnNode ep n pc = true
    · cases ha : ep.addresses with
      | nil =>
        rw [cSL_no_addr n pc pbn ep rest seen h1 ha] at h ⊢
        exact ih seen h
      | cons a rest' =>
        by_cases h2 : seen.contains a = true
        · rw [cSL_seen n pc pbn ep rest seen a rest' h1 ha h2] at h ⊢
          exact ih seen h
        · rw [cSL_new n pc pbn ep rest seen a rest' h1 ha h2] at h
          simp at h
    · rw [cSL_not_on n pc pbn ep rest seen h1] at h ⊢
      exact ih seen h

theorem localEndpoints_nil_iff (n pc : String) (slices : List KEndpointSlice) :
    localEndpointsForService n pc slices = [] ↔
      ∀ es ∈ slices, ∀ ep ∈ es.endpoints,
        ¬(isEndpointOnNode ep n pc = true ∧ ep.addresses ≠ []) := by
  unfold localEndpointsForService
  induction slices with
  | nil => simp [collectLocals]
  | cons es rest ih =>
    simp only [collectLocals, List.append_eq_nil]
    constructor
    · rintro ⟨hfst, hrest⟩
      have hsnd := collectSliceLocals_snd_of_fst_nil n pc _ es.endpoints [] hfst
      rw [hsnd] at hrest
      intro q hq
      rcases List.mem_cons.mp hq with rfl | hq
      · rintro ep hep ⟨hon, hne⟩
        have := (collectSliceLocals_fst_nil_iff n pc _ _ []).mp hfst ep hep hon
        cases haddr : ep.addresses with
        | nil => exact hne haddr
        | cons a r =>
          have hc := this a r haddr
          simp at hc
      · exact ih.mp hrest q hq
    · intro hall
      have hfst : (collectSliceLocals n pc (portByName es.ports) es.endpoints []).fst = [] := by
        rw [collectSliceLocals_fst_nil_iff]
        intro ep hep hon a r haddr
        exact absurd ⟨hon, by simp [haddr]⟩ (hall es (List.mem_cons_self _ _) ep hep)
      have hsnd := collectSliceLocals_snd_of_fst_nil n pc _ es.endpoints [] hfst
      refine ⟨hfst, ?_⟩
      rw [hsnd]
      exact ih.mpr (fun q hq => hall q (List.mem_cons.mpr (Or.inr hq)))

theorem hasLocalBackend_iff (n pc : String) (slices : List KEndpointSlice) (svc : KService) :
    hasLocalBackend n pc slices svc = true ↔
      localEndpointsForService n pc (endpointSlicesForService svc slices) ≠ [] := by
  rw [Ne, localEndpoints_nil_iff]
  unfold hasLocalBackend
  rw [List.any_eq_true]
  constructor
  · rintro ⟨es, hes, hany⟩ hall
    rw [List.any_eq_true] at hany
    obtain ⟨ep, hep, hq⟩ := hany
    simp only [decide_eq_true_eq] at hq
    exact (hall es hes ep hep) ⟨hq.1, hq.2⟩
  · intro h
    by_contra hno
    push_neg at hno
    apply h
    intro es hes ep hep hq
    have h2 : es.endpoints.any
        (fun ep => decide (isEndpointOnNode ep n pc = true ∧ ep.addresses ≠ [])) = false := by
      rw [← Bool.not_eq_true]
      exact hno es hes
    rw [List.any_eq_false] at h2
    have h3 := h2 ep hep
    simp only [decide_eq_true_eq] at h3
    exact h3 ⟨hq.1, hq.2⟩

theorem svcQualifies_iff (n pc : String) (slices : List KEndpointSlice) (svc : KService) :
    svcQualifies n pc slices svc = true ↔
      (isOurLoadBalancerService svc = true ∧
       ¬(svc.clusterIP = "" ∨ svc.clusterIP = "None") ∧
       localEndpointsForService n pc (endpointSlicesForService svc slices) ≠ [] ∧
       buildServiceConfig svc
         (localEndpointsForService n pc (endpointSlicesForService svc slices)) ≠ none) := by
  unfold svcQualifies
  simp only [Bool.and_eq_true, decide_eq_true_eq]
  constructor
  · rintro ⟨⟨⟨⟨⟨hty, hcl⟩, hip1⟩, hip2⟩, hlocal⟩, hres⟩
    have hne := (hasLocalBackend_iff n pc slices svc).mp hlocal
    refine ⟨(isOur_iff svc).mpr ⟨hty, hcl⟩, by tauto, hne, ?_⟩
    unfold firstLocalResolves svcLocals at hres
    cases hl : localEndpointsForService n pc (endpointSlicesForService svc slices) with
    | nil => exact absurd hl hne
    | cons first r =>
      rw [hl] at hres
      dsimp only at hres
      rw [Ne, buildServiceConfig_cons_none_iff]
      simp [hres]
  · rintro ⟨hour, hip, hne, hcfg⟩
    obtain ⟨hty, hcl⟩ := (isOur_iff svc).mp hour
    refine ⟨⟨⟨⟨⟨hty, hcl⟩, ?_⟩, ?_⟩, (hasLocalBackend_iff n pc slices svc).mpr hne⟩, ?_⟩
    · tauto
    · tauto
    · unfold firstLocalResolves svcLocals
      cases hl : localEndpointsForService n pc (endpointSlicesForService svc slices) with
      | nil => exact absurd hl hne
      | cons first r =>
        rw [hl] at hcfg
        rw [Ne, buildServiceConfig_cons_none_iff] at hcfg
        dsimp only
        simpa using hcfg

theorem desiredStep_managed (n pc : String) (slices : List KEndpointSlice)
    (acc : DesiredOut) (svc : KService) :
    (desiredStep n pc slices acc svc).managed =
      (if svcQualifies n pc slices svc = true
       then acc.managed ++ [tailscaleServiceName svc] else acc.managed) := by
  unfold desiredStep
  by_cases h1 : isOurLoadBalancerService svc = true
  · by_cases h2 : svc.clusterIP = "" ∨ svc.clusterIP = "None"
    · rw [if_neg (by simp [h1]), if_pos h2,
        if_neg (by rw [svcQualifies_iff]; tauto)]
    · by_cases h3 : localEndpointsForService n pc (endpointSlicesForService svc slices) = []
      · rw [if_neg (by simp [h1]), if_neg h2, if_pos h3,
          if_neg (by rw [svcQualifies_iff]; tauto)]
      · cases hcfg : buildServiceConfig svc
            (localEndpointsForService n pc (endpointSlicesForService svc slices)) with
        | none =>
          rw [if_neg (by simp [h1]), if_neg h2, if_neg h3,
            if_neg (by rw [svcQualifies_iff]; tauto)]
        | some cfg =>
          rw [if_neg (by simp [h1]), if_neg h2, if_neg h3,
            if_pos (by rw [svcQualifies_iff]; exact ⟨h1, h2, h3, by simp [hcfg]⟩)]
  · rw [if_pos h1, if_neg (by rw [svcQualifies_iff]; tauto)]

theorem buildDesired_managed_aux (n pc : String) (slices : List KEndpointSlice) :
    ∀ (services : List KService) (acc : DesiredOut),
      (services.foldl (desiredStep n pc slices) acc).managed =
        acc.managed ++
          (services.filter (svcQualifies n pc slices)).map tailscaleServiceName := by
  intro services
  induction services with
  | nil => intro acc; simp
  | cons svc rest ih =>
    intro acc
    simp only [List.foldl_cons, List.filter_cons]
    by_cases hq : svcQualifies n pc slices svc = true
    · rw [ih, desiredStep_managed, if_pos hq]
      simp [hq]
    · rw [ih, desiredStep_managed, if_neg hq]
      simp [hq]

/-- C4 (amended): a Service contributes its name to the managed set exactly
when it (a) is of LoadBalancer type, (b) carries this agent's
loadBalancerClass, (c) has a non-headless cluster IP, (d) has at least one
endpoint treated as local by isEndpointOnNode (explicit node-name match, and
otherwise - including when a different node name is present - pod-subnet
containment of the first endpoint address), and (e) resolves at least one
TCP port against its first local endpoint; a Service with zero resolved TCP
ports is dropped. -/
theorem serve_synthesis (nodeName podCIDR : String) (services : List KService)
    (slices : List KEndpointSlice) :
    (buildDesiredServices nodeName podCIDR services slices).managed =
      (services.filter (svcQualifies nodeName podCIDR slices)).map tailscaleServiceName := by
  unfold buildDesiredServices
  rw [buildDesired_managed_aux]
  rfl

/-- C4 counterexample: the claim reads locality as pod-subnet containment
only when the endpoint has no node name; the code also falls back to
containment when a node name is present but different. An endpoint with
nodeName "other-node" and address inside this node's pod CIDR is not local
per the claim, yet the Service is synthesized. -/
theorem serve_synthesis_counterexample :
    (buildDesiredServices "n1" "10.99.0.0/24"
      [⟨"default", "web", [], "LoadBalancer", some loadBalancerClass, "10.0.0.1",
        [⟨"http", "TCP", 80, .int 8080⟩]⟩]
      [⟨"default", [(labelServiceNameKey, "web")], [],
        [⟨["10.99.0.5"], some "other-node"⟩]⟩]).managed = ["svc:k8s-default-web"] ∧
    claimEndpointLocal ⟨["10.99.0.5"], some "other-node"⟩ "n1" "10.99.0.0/24" = false := by
  decide

theorem serve_synthesis_witness :
    (buildDesiredServices "n1" "10.99.0.0/24"
      [⟨"default", "web", [], "LoadBalancer", some loadBalancerClass, "10.0.0.1",
        [⟨"http", "TCP", 80, .int 8080⟩]⟩,
       ⟨"default", "udp-only", [], "LoadBalancer", some loadBalancerClass, "10.0.0.2",
        [⟨"dns", "UDP", 53, .int 5353⟩]⟩]
      [⟨"default", [(labelServiceNameKey, "web")], [],
        [⟨["10.99.0.5"], some "n1"⟩]⟩,
       ⟨"default", [(labelServiceNameKey, "udp-only")], [],
        [⟨["10.99.0.6"], some "n1"⟩]⟩]).managed = ["svc:k8s-default-web"] := by
  rw [serve_synthesis]
  decide

/-! ## Route synchronizer lemmas (for C2, C6, C10) -/

theorem lookupA_eq_none_iff {κ α : Type} [DecidableEq κ] (m : List (κ × α)) (k : κ) :
    lookupA m k = none ↔ k ∉ m.map Prod.fst := by
  induction m with
  | nil => simp [lookupA]
  | cons kw rest ih =>
    obtain ⟨k0, w⟩ := kw
    by_cases h : k0 = k
    · subst h
      simp [lookupA]
    · simp [lookupA, h, ih, Ne.symm h]

theorem eq_nil_of_lookupA_none {κ α : Type} [DecidableEq κ] (m : List (κ × α))
    (h : ∀ k, lookupA m k = none) : m = [] := by
  cases m with
  | nil => rfl
  | cons kw rest =>
    obtain ⟨k0, w⟩ := kw
    have := h k0
    simp [lookupA] at this

theorem EA_skip (env : RouteEnv) (iface : String) (routes current : RouteCache)
    (cidr via : String) (rest : List (String × String))
    (h : lookupA current cidr = some via) :
    ensureAdds env iface routes current ((cidr, via) :: rest) =
      ensureAdds env iface routes (eraseA current cidr) rest := by
  rw [ensureAdds, if_pos h]

theorem EA_unreach (env : RouteEnv) (iface : String) (routes current : RouteCache)
    (cidr via : String) (rest : List (String × String)) (e : RouteErr)
    (h : ¬ lookupA current cidr = some via) (he : addRouteL env cidr via iface = some e)
    (hu : isNetworkUnreachable e = true) :
    ensureAdds env iface routes current ((cidr, via) :: rest) =
      ⟨(ensureAdds env iface routes current rest).routes,
       (ensureAdds env iface routes current rest).current,
       .addAttempt cidr via (some e) :: (ensureAdds env iface routes current rest).ops,
       (ensureAdds env iface routes current rest).err⟩ := by
  rw [ensureAdds, if_neg h, he]
  dsimp only
  rw [if_pos hu]

theorem EA_err (env : RouteEnv) (iface : String) (routes current : RouteCache)
    (cidr via : String) (rest : List (String × String)) (e : RouteErr)
    (h : ¬ lookupA current cidr = some via) (he : addRouteL env cidr via iface = some e)
    (hu : ¬ isNetworkUnreachable e = true) :
    ensureAdds env iface routes current ((cidr, via) :: rest) =
      ⟨routes, current, [.addAttempt cidr via (some e)], some ("add route " ++ cidr)⟩ := by
  rw [ensureAdds, if_neg h, he]
  dsimp only
  rw [if_neg hu]

theorem EA_ok (env : RouteEnv) (iface : String) (routes current : RouteCache)
    (cidr via : String) (rest : List (String × String))
    (h : ¬ lookupA current cidr = some via) (he : addRouteL env cidr via iface = none) :
    ensureAdds env iface routes current ((cidr, via) :: rest) =
      ⟨(ensureAdds env iface (insertA routes cidr via) (eraseA current cidr) rest).routes,
       (ensureAdds env iface (insertA routes cidr via) (eraseA current cidr) rest).current,
       .addAttempt cidr via none ::
         (ensureAdds env iface (insertA routes cidr via) (eraseA current cidr) rest).ops,
       (ensureAdds env iface (insertA routes cidr via) (eraseA current cidr) rest).err⟩ := by
  rw [ensureAdds, if_neg h, he]

theorem ED_err (env : RouteEnv) (routes : RouteCache) (cidr w : String)
    (rest : RouteCache) (m : String) (he : delRouteL env cidr = some m) :
    ensureDels env routes ((cidr, w) :: rest) =
      ⟨routes, [.delAttempt cidr (some m)], some ("del route " ++ cidr)⟩ := by
  rw [ensureDels, he]

theorem ED_ok (env : RouteEnv) (routes : RouteCache) (cidr w : String)
    (rest : RouteCache) (he : delRouteL env cidr = none) :
    ensureDels env routes ((cidr, w) :: rest) =
      ⟨(ensureDels env (eraseA routes cidr) rest).routes,
       .delAttempt cidr none :: (ensureDels env (eraseA routes cidr) rest).ops,
       (ensureDels env (eraseA routes cidr) rest).err⟩ := by
  rw [ensureDels, he]

theorem phase2_spec (env : RouteEnv) :
    ∀ (cur routes : RouteCache),
      ((ensureDels env routes cur).err = none ↔ ∀ p ∈ cur, delRouteL env p.1 = none) ∧
      ((ensureDels env routes cur).err = none →
        (∀ c, c ∈ cur.map Prod.fst → lookupA (ensureDels env routes cur).routes c = none) ∧
        (∀ c, c ∉ cur.map Prod.fst →
          lookupA (ensureDels env routes cur).routes c = lookupA routes c) ∧
        (ensureDels env routes cur).ops = cur.map (fun p => .delAttempt p.1 none)) := by
  intro cur
  induction cur with
  | nil =>
    intro routes
    refine ⟨by simp [ensureDels], fun _ => ⟨by simp, fun c _ => rfl, rfl⟩⟩
  | cons p rest ih =>
    intro routes
    obtain ⟨c0, w0⟩ := p
    cases he : delRouteL env c0 with
    | some m =>
      rw [ED_err env routes c0 w0 rest m he]
      refine ⟨iff_of_false (by simp) ?_, fun h => by cases h⟩
      intro hall
      have := hall (c0, w0) (List.mem_cons_self _ _)
      rw [he] at this
      cases this
    | none =>
      rw [ED_ok env routes c0 w0 rest he]
      obtain ⟨ih1, ih2⟩ := ih (eraseA routes c0)
      constructor
      · rw [ih1]
        constructor
        · intro h p hp
          rcases List.mem_cons.mp hp with rfl | hp
          · exact he
          · exact h p hp
        · intro h p hp
          exact h p (List.mem_cons.mpr (Or.inr hp))
      · intro herr
        obtain ⟨h1, h2, h3⟩ := ih2 herr
        refine ⟨?_, ?_, ?_⟩
        · intro c hc
          by_cases hcr : c ∈ rest.map Prod.fst
          · exact h1 c hcr
          · rw [h2 c hcr]
            rcases List.mem_cons.mp hc with rfl | hc
            · exact lookupA_eraseA_self _ _
            · exact absurd (by simpa using hc) hcr
        · intro c hc
          simp only [List.map_cons, List.mem_cons, not_or] at hc
          rw [h2 c hc.2, lookupA_eraseA_ne _ _ _ (fun h => hc.1 h.symm)]
        · simp [h3]

theorem phase1_noop (env : RouteEnv) (iface : String) :
    ∀ (desired : List (String × String)) (routes current : RouteCache),
      (desired.map Prod.fst).Nodup →
      (∀ c v, (c, v) ∈ desired →
        (lookupA current c = some v ∨
         (unreachAdd env iface c v = true ∧ lookupA current c = none))) →
      ((ensureAdds env iface routes current desired).routes = routes ∧
       (ensureAdds env iface routes current desired).err = none ∧
       (∀ op ∈ (ensureAdds env iface routes current desired).ops, isSuccessOp op = false) ∧
       ((∀ c v, (c, v) ∈ desired → lookupA current c = some v) →
         (ensureAdds env iface routes current desired).ops = []) ∧
       (∀ c w, lookupA (ensureAdds env iface routes current desired).current c = some w →
         (lookupA current c = some w ∧ (c, w) ∉ desired))) := by
  intro desired
  induction desired with
  | nil =>
    intro routes current _ _
    exact ⟨rfl, rfl, by simp [ensureAdds], fun _ => rfl, fun c w h => ⟨h, by simp⟩⟩
  | cons p rest ih =>
    intro routes current hkeys hcond
    obtain ⟨c0, v0⟩ := p
    have hkeyne : ∀ c v, (c, v) ∈ rest → c ≠ c0 := by
      intro c v hm heq
      subst heq
      simp only [List.map_cons, List.nodup_cons] at hkeys
      exact hkeys.1 (List.mem_map.mpr ⟨(c, v), hm, rfl⟩)
    have hkrest : (rest.map Prod.fst).Nodup := by
      simp only [List.map_cons, List.nodup_cons] at hkeys
      exact hkeys.2
    rcases hcond c0 v0 (List.mem_cons_self _ _) with hskip | ⟨hun, hnone⟩
    · rw [EA_skip env iface routes current c0 v0 rest hskip]
      have hcond' : ∀ c v, (c, v) ∈ rest →
          (lookupA (eraseA current c0) c = some v ∨
           (unreachAdd env iface c v = true ∧ lookupA (eraseA current c0) c = none)) := by
        intro c v hm
        rw [lookupA_eraseA_ne _ _ _ (Ne.symm (hkeyne c v hm))]
        exact hcond c v (List.mem_cons.mpr (Or.inr hm))
      obtain ⟨g1, g2, g3, g4, g5⟩ := ih routes (eraseA current c0) hkrest hcond'
      refine ⟨g1, g2, g3, ?_, ?_⟩
      · intro hall
        apply g4
        intro c v hm
        rw [lookupA_eraseA_ne _ _ _ (Ne.symm (hkeyne c v hm))]
        exact hall c v (List.mem_cons.mpr (Or.inr hm))
      · intro c w hcw
        obtain ⟨hl, hnm⟩ := g5 c w hcw
        by_cases hcc : c = c0
        · subst hcc
          rw [lookupA_eraseA_self] at hl
          cases hl
        · rw [lookupA_eraseA_ne _ _ _ (Ne.symm hcc)] at hl
          refine ⟨hl, ?_⟩
          intro hmem
          rcases List.mem_cons.mp hmem with heq | hmem
          · exact hcc (congrArg Prod.fst heq)
          · exact hnm hmem
    · have hnskip : ¬ lookupA current c0 = some v0 := by
        rw [hnone]
        simp
      unfold unreachAdd at hun
      cases he : addRouteL env c0 v0 iface with
      | none => rw [he] at hun; cases hun
      | some e =>
        rw [he] at hun
        rw [EA_unreach env iface routes current c0 v0 rest e hnskip he hun]
        obtain ⟨g1, g2, g3, g4, g5⟩ := ih routes current hkrest
          (fun c v hm => hcond c v (List.mem_cons.mpr (Or.inr hm)))
        refine ⟨g1, g2, ?_, ?_, ?_⟩
        · intro op hop
          rcases List.mem_cons.mp hop with rfl | hop
          · rfl
          · exact g3 op hop
        · intro hall
          have := hall c0 v0 (List.mem_cons_self _ _)
          rw [hnone] at this
          cases this
        · intro c w hcw
          obtain ⟨hl, hnm⟩ := g5 c w hcw
          refine ⟨hl, ?_⟩
          intro hmem
          rcases List.mem_cons.mp hmem with heq | hmem
          · injection heq with h1 h2
            subst h1
            rw [hnone] at hl
            cases hl
          · exact hnm hmem

theorem phase1_spec (env : RouteEnv) (iface : String) :
    ∀ (desired : List (String × String)) (routes current : RouteCache),
      (desired.map Prod.fst).Nodup →
      (∀ c v, (c, v) ∈ desired → lookupA current c = lookupA routes c) →
      (((ensureAdds env iface routes current desired).err = none ↔
         ∀ c v, (c, v) ∈ desired →
           (lookupA current c = some v ∨ addRouteL env c v iface = none ∨
            unreachAdd env iface c v = true)) ∧
       ((ensureAdds env iface routes current desired).err = none →
         ((∀ c v, lookupA (ensureAdds env iface routes current desired).routes c = some v ↔
            (((c, v) ∈ desired ∧
              (lookupA current c = some v ∨ addRouteL env c v iface = none)) ∨
             (lookupA routes c = some v ∧
              ∀ w, (c, w) ∈ desired →
                (lookupA current c ≠ some w ∧ addRouteL env c w iface ≠ none)))) ∧
          (∀ c v, (c, v) ∈ desired →
            (lookupA current c = some v ∨ addRouteL env c v iface = none) →
            lookupA (ensureAdds env iface routes current desired).current c = none) ∧
          (∀ c, (∀ v, (c, v) ∈ desired →
              (lookupA current c ≠ some v ∧ addRouteL env c v iface ≠ none)) →
            lookupA (ensureAdds env iface routes current desired).current c =
              lookupA current c)))) := by
  intro desired
  induction desired with
  | nil =>
    intro routes current _ _
    refine ⟨by simp [ensureAdds], fun _ => ⟨?_, by simp, fun c _ => rfl⟩⟩
    intro c v
    simp [ensureAdds]
  | cons p rest ih =>
    intro routes current hkeys hagree
    obtain ⟨c0, v0⟩ := p
    have hkeyne : ∀ {c v : String}, (c, v) ∈ rest → c ≠ c0 := by
      intro c v hm heq
      subst heq
      simp only [List.map_cons, List.nodup_cons] at hkeys
      exact hkeys.1 (List.mem_map.mpr ⟨(c, v), hm, rfl⟩)
    have hkrest : (rest.map Prod.fst).Nodup := by
      simp only [List.map_cons, List.nodup_cons] at hkeys
      exact hkeys.2
    have hagree0 : lookupA current c0 = lookupA routes c0 :=
      hagree c0 v0 (List.mem_cons_self _ _)
    have hmemc0 : ∀ {w : String}, (c0, w) ∈ ((c0, v0) :: rest) ↔ w = v0 := by
      intro w
      constructor
      · intro hm
        rcases List.mem_cons.mp hm with heq | hm'
        · exact (congrArg Prod.snd heq)
        · exact absurd rfl (hkeyne hm')
      · intro h
        subst h
        exact List.mem_cons_self _ _
    have hmemne : ∀ {c w : String}, c ≠ c0 → ((c, w) ∈ ((c0, v0) :: rest) ↔ (c, w) ∈ rest) := by
      intro c w hcc
      constructor
      · intro hm
        rcases List.mem_cons.mp hm with heq | hm'
        · exact absurd (congrArg Prod.fst heq) hcc
        · exact hm'
      · exact fun hm => List.mem_cons.mpr (Or.inr hm)
    by_cases hskip : lookupA current c0 = some v0
    · rw [EA_skip env iface routes current c0 v0 rest hskip]
      have hagree' : ∀ c v, (c, v) ∈ rest →
          lookupA (eraseA current c0) c = lookupA routes c := by
        intro c v hm
        rw [lookupA_eraseA_ne _ _ _ (Ne.symm (hkeyne hm))]
        exact hagree c v (List.mem_cons.mpr (Or.inr hm))
      obtain ⟨iA, iBC⟩ := ih routes (eraseA current c0) hkrest hagree'
      constructor
      · rw [iA]
        constructor
        · intro h c v hm
          rcases List.mem_cons.mp hm with heq | hm'
          · obtain ⟨h1, h2⟩ : c = c0 ∧ v = v0 :=
              ⟨congrArg Prod.fst heq, congrArg Prod.snd heq⟩
            subst h1; subst h2
            exact Or.inl hskip
          · have := h c v hm'
            rwa [lookupA_eraseA_ne _ _ _ (Ne.symm (hkeyne hm'))] at this
        · intro h c v hm
          rw [lookupA_eraseA_ne _ _ _ (Ne.symm (hkeyne hm))]
          exact h c v (List.mem_cons.mpr (Or.inr hm))
      · intro herr
        obtain ⟨iB, iC1, iC2⟩ := iBC herr
        have hr0 : lookupA routes c0 = some v0 := hagree0 ▸ hskip
        refine ⟨?_, ?_, ?_⟩
        · intro c v
          rw [iB c v]
          by_cases hcc : c = c0
          · subst hcc
            constructor
            · rintro (⟨hm, -⟩ | ⟨hl, -⟩)
              · exact absurd rfl (hkeyne hm)
              · rw [hr0] at hl
                injection hl with hl
                subst hl
                exact Or.inl ⟨List.mem_cons_self _ _, Or.inl hskip⟩
            · rintro (⟨hm, -⟩ | ⟨-, hall⟩)
              · have hv := hmemc0.mp hm
                subst hv
                exact Or.inr ⟨hr0, fun w hw => absurd rfl (hkeyne hw)⟩
              · exact absurd hskip (hall v0 (List.mem_cons_self _ _)).1
          · constructor
            · rintro (⟨hm, hcond⟩ | ⟨hl, hall⟩)
              · rw [lookupA_eraseA_ne _ _ _ (Ne.symm hcc)] at hcond
                exact Or.inl ⟨(hmemne hcc).mpr hm, hcond⟩
              · refine Or.inr ⟨hl, fun w hw => ?_⟩
                have := hall w ((hmemne hcc).mp hw)
                rwa [lookupA_eraseA_ne _ _ _ (Ne.symm hcc)] at this
            · rintro (⟨hm, hcond⟩ | ⟨hl, hall⟩)
              · rw [← lookupA_eraseA_ne current c0 c (Ne.symm hcc)] at hcond
                exact Or.inl ⟨(hmemne hcc).mp hm, hcond⟩
              · refine Or.inr ⟨hl, fun w hw => ?_⟩
                have := hall w ((hmemne hcc).mpr hw)
                rwa [lookupA_eraseA_ne current c0 c (Ne.symm hcc)]
        · intro c v hm hcond
          rcases List.mem_cons.mp hm with heq | hm'
          · obtain ⟨h1, h2⟩ : c0 = c ∧ v0 = v :=
              ⟨(congrArg Prod.fst heq).symm, (congrArg Prod.snd heq).symm⟩
            subst h1; subst h2
            rw [iC2 c0 (fun w hw => absurd rfl (hkeyne hw)), lookupA_eraseA_self]
          · apply iC1 c v hm'
            rwa [lookupA_eraseA_ne _ _ _ (Ne.symm (hkeyne hm'))]
        · intro c hall
          by_cases hcc : c = c0
          · subst hcc
            exact absurd hskip (hall v0 (List.mem_cons_self _ _)).1
          · rw [iC2 c (fun v hv => by
                rw [lookupA_eraseA_ne _ _ _ (Ne.symm hcc)]
                exact hall v ((hmemne hcc).mpr hv)),
              lookupA_eraseA_ne _ _ _ (Ne.symm hcc)]
    · cases haddr : addRouteL env c0 v0 iface with
      | none =>
        rw [EA_ok env iface routes current c0 v0 rest hskip haddr]
        dsimp only
        have hagree' : ∀ c v, (c, v) ∈ rest →
            lookupA (eraseA current c0) c = lookupA (insertA routes c0 v0) c := by
          intro c v hm
          rw [lookupA_eraseA_ne _ _ _ (Ne.symm (hkeyne hm)),
            lookupA_insertA_ne _ _ _ _ (Ne.symm (hkeyne hm))]
          exact hagree c v (List.mem_cons.mpr (Or.inr hm))
        obtain ⟨iA, iBC⟩ := ih (insertA routes c0 v0) (eraseA current c0) hkrest hagree'
        constructor
        · rw [iA]
          constructor
          · intro h c v hm
            rcases List.mem_cons.mp hm with heq | hm'
            · obtain ⟨h1, h2⟩ : c = c0 ∧ v = v0 :=
                ⟨congrArg Prod.fst heq, congrArg Prod.snd heq⟩
              subst h1; subst h2
              exact Or.inr (Or.inl haddr)
            · have := h c v hm'
              rwa [lookupA_eraseA_ne _ _ _ (Ne.symm (hkeyne hm'))] at this
          · intro h c v hm
            rw [lookupA_eraseA_ne _ _ _ (Ne.symm (hkeyne hm))]
            exact h c v (List.mem_cons.mpr (Or.inr hm))
        · intro herr
          obtain ⟨iB, iC1, iC2⟩ := iBC herr
          refine ⟨?_, ?_, ?_⟩
          · intro c v
            rw [iB c v]
            by_cases hcc : c = c0
            · subst hcc
              constructor
              · rintro (⟨hm, -⟩ | ⟨hl, -⟩)
                · exact absurd rfl (hkeyne hm)
                · rw [lookupA_insertA_self] at hl
                  injection hl with hl
                  subst hl
                  exact Or.inl ⟨List.mem_cons_self _ _, Or.inr haddr⟩
              · rintro (⟨hm, -⟩ | ⟨-, hall⟩)
                · have hv := hmemc0.mp hm
                  subst hv
                  exact Or.inr ⟨lookupA_insertA_self _ _ _,
                    fun w hw => absurd rfl (hkeyne hw)⟩
                · exact absurd haddr (hall v0 (List.mem_cons_self _ _)).2
            · constructor
              · rintro (⟨hm, hcond⟩ | ⟨hl, hall⟩)
                · rw [lookupA_eraseA_ne _ _ _ (Ne.symm hcc)] at hcond
                  exact Or.inl ⟨(hmemne hcc).mpr hm, hcond⟩
                · rw [lookupA_insertA_ne _ _ _ _ (Ne.symm hcc)] at hl
                  refine Or.inr ⟨hl, fun w hw => ?_⟩
                  have := hall w ((hmemne hcc).mp hw)
                  rwa [lookupA_eraseA_ne _ _ _ (Ne.symm hcc)] at this
              · rintro (⟨hm, hcond⟩ | ⟨hl, hall⟩)
                · rw [← lookupA_eraseA_ne current c0 c (Ne.symm hcc)] at hcond
                  exact Or.inl ⟨(hmemne hcc).mp hm, hcond⟩
                · rw [← lookupA_insertA_ne routes c0 c v0 (Ne.symm hcc)] at hl
                  refine Or.inr ⟨hl, fun w hw => ?_⟩
                  have := hall w ((hmemne hcc).mpr hw)
                  rwa [lookupA_eraseA_ne current c0 c (Ne.symm hcc)]
          · intro c v hm hcond
            rcases List.mem_cons.mp hm with heq | hm'
            · obtain ⟨h1, h2⟩ : c0 = c ∧ v0 = v :=
                ⟨(congrArg Prod.fst heq).symm, (congrArg Prod.snd heq).symm⟩
              subst h1; subst h2
              rw [iC2 c0 (fun w hw => absurd rfl (hkeyne hw)), lookupA_eraseA_self]
            · apply iC1 c v hm'
              rwa [lookupA_eraseA_ne _ _ _ (Ne.symm (hkeyne hm'))]
          · intro c hall
            by_cases hcc : c = c0
            · subst hcc
              exact absurd haddr (hall v0 (List.mem_cons_self _ _)).2
            · rw [iC2 c (fun v hv => by
                  rw [lookupA_eraseA_ne _ _ _ (Ne.symm hcc)]
                  exact hall v ((hmemne hcc).mpr hv)),
                lookupA_eraseA_ne _ _ _ (Ne.symm hcc)]
      | some e =>
        by_cases hun : isNetworkUnreachable e = true
        · rw [EA_unreach env iface routes current c0 v0 rest e hskip haddr hun]
          dsimp only
          obtain ⟨iA, iBC⟩ := ih routes current hkrest
            (fun c v hm => hagree c v (List.mem_cons.mpr (Or.inr hm)))
          have hunr : unreachAdd env iface c0 v0 = true := by
            unfold unreachAdd
            rw [haddr]
            exact hun
          constructor
          · rw [iA]
            constructor
            · intro h c v hm
              rcases List.mem_cons.mp hm with heq | hm'
              · obtain ⟨h1, h2⟩ : c = c0 ∧ v = v0 :=
                  ⟨congrArg Prod.fst heq, congrArg Prod.snd heq⟩
                subst h1; subst h2
                exact Or.inr (Or.inr hunr)
              · exact h c v hm'
            · intro h c v hm
              exact h c v (List.mem_cons.mpr (Or.inr hm))
          · intro herr
            obtain ⟨iB, iC1, iC2⟩ := iBC herr
            refine ⟨?_, ?_, ?_⟩
            · intro c v
              rw [iB c v]
              by_cases hcc : c = c0
              · subst hcc
                constructor
                · rintro (⟨hm, -⟩ | ⟨hl, -⟩)
                  · exact absurd rfl (hkeyne hm)
                  · refine Or.inr ⟨hl, fun w hw => ?_⟩
                    have hv := hmemc0.mp hw
                    subst hv
                    exact ⟨hskip, by rw [haddr]; simp⟩
                · rintro (⟨hm, hcond⟩ | ⟨hl, -⟩)
                  · have hv := hmemc0.mp hm
                    subst hv
                    rcases hcond with h | h
                    · exact absurd h hskip
                    · rw [haddr] at h
                      cases h
                  · exact Or.inr ⟨hl, fun w hw => absurd rfl (hkeyne hw)⟩
              · constructor
                · rintro (⟨hm, hcond⟩ | ⟨hl, hall⟩)
                  · exact Or.inl ⟨(hmemne hcc).mpr hm, hcond⟩
                  · exact Or.inr ⟨hl, fun w hw => hall w ((hmemne hcc).mp hw)⟩
                · rintro (⟨hm, hcond⟩ | ⟨hl, hall⟩)
                  · exact Or.inl ⟨(hmemne hcc).mp hm, hcond⟩
                  · exact Or.inr ⟨hl, fun w hw => hall w ((hmemne hcc).mpr hw)⟩
            · intro c v hm hcond
              rcases List.mem_cons.mp hm with heq | hm'
              · obtain ⟨h1, h2⟩ : c = c0 ∧ v = v0 :=
                  ⟨congrArg Prod.fst heq, congrArg Prod.snd heq⟩
                subst h1; subst h2
                rcases hcond with h | h
                · exact absurd h hskip
                · rw [haddr] at h
                  cases h
              · exact iC1 c v hm' hcond
            · intro c hall
              exact iC2 c (fun v hv => hall v (List.mem_cons.mpr (Or.inr hv)))
        · rw [EA_err env iface routes current c0 v0 rest e hskip haddr hun]
          dsimp only
          constructor
          · refine iff_of_false (by simp) ?_
            intro h
            rcases h c0 v0 (List.mem_cons_self _ _) with hc | hc | hc
            · exact hskip hc
            · rw [haddr] at hc
              cases hc
            · unfold unreachAdd at hc
              rw [haddr] at hc
              exact hun hc
          · intro herr
            simp at herr

theorem lookupA_of_mem_nodup {κ α : Type} [DecidableEq κ] (m : List (κ × α))
    (hk : (m.map Prod.fst).Nodup) (k : κ) (v : α) (h : (k, v) ∈ m) :
    lookupA m k = some v := by
  induction m with
  | nil => cases h
  | cons kw rest ih =>
    obtain ⟨k0, w⟩ := kw
    simp only [List.map_cons, List.nodup_cons] at hk
    rcases List.mem_cons.mp h with heq | hm
    · obtain ⟨h1, h2⟩ : k0 = k ∧ w = v :=
        ⟨(congrArg Prod.fst heq).symm, (congrArg Prod.snd heq).symm⟩
      subst h1; subst h2
      simp [lookupA]
    · have hne : k0 ≠ k := by
        intro heq
        subst heq
        exact hk.1 (List.mem_map.mpr ⟨(k0, v), hm, rfl⟩)
      simp only [lookupA, if_neg hne]
      exact ih hk.2 hm

theorem ensureRoutes_eq_of_p1_none (env : RouteEnv) (iface : String)
    (routes0 : RouteCache) (desired : List (String × String))
    (h : (ensureAdds env iface routes0 routes0 desired).err = none) :
    ensureRoutes env iface routes0 desired =
      ⟨(ensureDels env (ensureAdds env iface routes0 routes0 desired).routes
          (ensureAdds env iface routes0 routes0 desired).current).routes,
       (ensureDels env (ensureAdds env iface routes0 routes0 desired).routes
          (ensureAdds env iface routes0 routes0 desired).current).err,
       (ensureAdds env iface routes0 routes0 desired).ops ++
         (ensureDels env (ensureAdds env iface routes0 routes0 desired).routes
            (ensureAdds env iface routes0 routes0 desired).current).ops⟩ := by
  simp only [ensureRoutes, h]

theorem ensureRoutes_err_of_p1_err (env : RouteEnv) (iface : String)
    (routes0 : RouteCache) (desired : List (String × String)) (e : String)
    (h : (ensureAdds env iface routes0 routes0 desired).err = some e) :
    (ensureRoutes env iface routes0 desired).error = some e := by
  simp only [ensureRoutes, h]

/-! ## C10: gateway change with unreachable new gateway -/

/-- C10: when a CIDR present in the applied cache with an old gateway is
re-desired with a new gateway and installing the new route fails with
gateway-unreachable, the stale-removal phase deletes the old kernel route
(the trace ends with a successful delete), the CIDR is dropped from the
applied cache, and the call still returns success, leaving no route for the
CIDR. -/
theorem route_gateway_change_removal (env : RouteEnv) (iface c vOld vNew : String)
    (e : RouteErr) (hne : vOld ≠ vNew)
    (haddL : addRouteL env c vNew iface = some e)
    (hu : isNetworkUnreachable e = true)
    (hdel : delRouteL env c = none) :
    ensureRoutes env iface [(c, vOld)] [(c, vNew)] =
      ⟨[], none, [.addAttempt c vNew (some e), .delAttempt c none]⟩ := by
  have hlk : ¬ lookupA [(c, vOld)] c = some vNew := by
    simp only [lookupA, if_pos rfl]
    intro h
    injection h with h
    exact hne h
  have h1 : ensureAdds env iface [(c, vOld)] [(c, vOld)] [(c, vNew)] =
      ⟨[(c, vOld)], [(c, vOld)], [.addAttempt c vNew (some e)], none⟩ := by
    rw [EA_unreach env iface [(c, vOld)] [(c, vOld)] c vNew [] e hlk haddL hu]
    rfl
  have h2 : ensureDels env [(c, vOld)] [(c, vOld)] =
      ⟨[], [.delAttempt c none], none⟩ := by
    rw [ED_ok env [(c, vOld)] c vOld [] hdel]
    simp [eraseA, ensureDels]
  rw [ensureRoutes_eq_of_p1_none env iface [(c, vOld)] [(c, vNew)] (by rw [h1])]
  rw [h1]
  dsimp only
  rw [h2]
  rfl

theorem route_gateway_change_removal_witness :
    ensureRoutes ⟨fun _ _ => .enetunreach, fun _ => .ok, fun _ => some 1⟩ "tailscale0"
      [("10.99.1.0/24", "100.64.0.1")] [("10.99.1.0/24", "100.64.0.2")] =
      ⟨[], none, [.addAttempt "10.99.1.0/24" "100.64.0.2" (some .unreachable),
        .delAttempt "10.99.1.0/24" none]⟩ := by
  exact route_gateway_change_removal ⟨fun _ _ => .enetunreach, fun _ => .ok, fun _ => some 1⟩
    "tailscale0" "10.99.1.0/24" "100.64.0.1" "100.64.0.2" .unreachable
    (by decide) (by decide) rfl (by decide)

/-! ## C6: route error classification -/

/-- C6: EEXIST on install and ESRCH/ENOENT on removal are treated as
success; ENETUNREACH on install is skipped without failing the cycle and
the entry stays out of the applied cache; any other install or removal
error (whose message is not the unreachable message) makes EnsureRoutes
return an error for the cycle. -/
theorem route_error_classes (env : RouteEnv) (iface c v : String)
    (hc : (parsePrefix4 c).isSome = true) (hv : (parseIPv4 v).isSome = true)
    (hlink : iface = "" ∨ (env.linkIndex iface).isSome = true) :
    (env.addRes c v = .eexist → addRouteL env c v iface = none) ∧
    ((env.delRes c = .esrch ∨ env.delRes c = .enoent) → delRouteL env c = none) ∧
    (env.addRes c v = .enetunreach →
      ensureRoutes env iface [] [(c, v)] =
        ⟨[], none, [.addAttempt c v (some .unreachable)]⟩) ∧
    (∀ m, env.addRes c v = .err m → containsSubstr m "network is unreachable" = false →
      (ensureRoutes env iface [] [(c, v)]).error ≠ none) ∧
    (∀ m, env.delRes c = .err m → (ensureRoutes env iface [(c, v)] []).error ≠ none) := by
  obtain ⟨pc, hpc⟩ := Option.isSome_iff_exists.mp hc
  obtain ⟨pv, hpv⟩ := Option.isSome_iff_exists.mp hv
  have hlinkC : ¬(iface ≠ "" ∧ env.linkIndex iface = none) := by
    rcases hlink with h | h
    · intro hh
      exact hh.1 h
    · intro hh
      rw [hh.2] at h
      cases h
  have haddBase : ∀ r, env.addRes c v = r →
      addRouteL env c v iface =
        (match r with
         | .ok => none
         | .eexist => none
         | .enetunreach => some .unreachable
         | .err m => some (.other m)) := by
    intro r hr
    unfold addRouteL
    rw [hpc, hpv, if_neg hlinkC, hr]
  have hdelBase : ∀ r, env.delRes c = r →
      delRouteL env c =
        (match r with
         | .ok => none
         | .esrch => none
         | .enoent => none
         | .err m => some m) := by
    intro r hr
    unfold delRouteL
    rw [hpc, hr]
  refine ⟨?_, ?_, ?_, ?_, ?_⟩
  · intro h
    exact haddBase .eexist h
  · intro h
    rcases h with h | h
    · exact hdelBase .esrch h
    · exact hdelBase .enoent h
  · intro h
    have haddL : addRouteL env c v iface = some .unreachable := haddBase .enetunreach h
    have h1 : ensureAdds env iface [] [] [(c, v)] =
        ⟨[], [], [.addAttempt c v (some .unreachable)], none⟩ := by
      rw [EA_unreach env iface [] [] c v [] .unreachable (by simp [lookupA]) haddL rfl]
      rfl
    rw [ensureRoutes_eq_of_p1_none env iface [] [(c, v)] (by rw [h1])]
    rw [h1]
    rfl
  · intro m hm hsub
    have haddL : addRouteL env c v iface = some (.other m) := haddBase (.err m) hm
    have hnu : ¬ isNetworkUnreachable (.other m) = true := by
      simp only [isNetworkUnreachable, hsub]
      simp
    have h1 : (ensureAdds env iface [] [] [(c, v)]).err = some ("add route " ++ c) := by
      rw [EA_err env iface [] [] c v [] (.other m) (by simp [lookupA]) haddL hnu]
    rw [ensureRoutes_err_of_p1_err env iface [] [(c, v)] _ h1]
    simp
  · intro m hm
    have hdelL : delRouteL env c = some m := hdelBase (.err m) hm
    have h1 : ensureAdds env iface [(c, v)] [(c, v)] [] = ⟨[(c, v)], [(c, v)], [], none⟩ := rfl
    rw [ensureRoutes_eq_of_p1_none env iface [(c, v)] [] (by rw [h1])]
    rw [h1]
    dsimp only
    rw [ED_err env [(c, v)] c v [] m hdelL]
    simp

theorem route_error_classes_witness :
    addRouteL ⟨fun _ _ => .eexist, fun _ => .esrch, fun _ => some 1⟩
      "10.99.1.0/24" "100.64.0.1" "tailscale0" = none ∧
    delRouteL ⟨fun _ _ => .eexist, fun _ => .esrch, fun _ => some 1⟩ "10.99.1.0/24" = none ∧
    ensureRoutes ⟨fun _ _ => .enetunreach, fun _ => .ok, fun _ => some 1⟩ "tailscale0"
      [] [("10.99.1.0/24", "100.64.0.1")] =
      ⟨[], none, [.addAttempt "10.99.1.0/24" "100.64.0.1" (some .unreachable)]⟩ ∧
    (ensureRoutes ⟨fun _ _ => .err "permission denied", fun _ => .ok, fun _ => some 1⟩
      "tailscale0" [] [("10.99.1.0/24", "100.64.0.1")]).error ≠ none ∧
    (ensureRoutes ⟨fun _ _ => .ok, fun _ => .err "operation not permitted", fun _ => some 1⟩
      "tailscale0" [("10.99.1.0/24", "100.64.0.1")] []).error ≠ none := by
  refine ⟨?_, ?_, ?_, ?_, ?_⟩
  · exact (route_error_classes ⟨fun _ _ => .eexist, fun _ => .esrch, fun _ => some 1⟩
      "tailscale0" "10.99.1.0/24" "100.64.0.1" (by decide) (by decide)
      (Or.inr (by decide))).1 rfl
  · exact (route_error_classes ⟨fun _ _ => .eexist, fun _ => .esrch, fun _ => some 1⟩
      "tailscale0" "10.99.1.0/24" "100.64.0.1" (by decide) (by decide)
      (Or.inr (by decide))).2.1 (Or.inl rfl)
  · exact (route_error_classes ⟨fun _ _ => .enetunreach, fun _ => .ok, fun _ => some 1⟩
      "tailscale0" "10.99.1.0/24" "100.64.0.1" (by decide) (by decide)
      (Or.inr (by decide))).2.2.1 rfl
  · exact (route_error_classes ⟨fun _ _ => .err "permission denied", fun _ => .ok,
      fun _ => some 1⟩ "tailscale0" "10.99.1.0/24" "100.64.0.1" (by decide) (by decide)
      (Or.inr (by decide))).2.2.2.1 "permission denied" rfl (by decide)
  · exact (route_error_classes ⟨fun _ _ => .ok, fun _ => .err "operation not permitted",
      fun _ => some 1⟩ "tailscale0" "10.99.1.0/24" "100.64.0.1" (by decide) (by decide)
      (Or.inr (by decide))).2.2.2.2 "operation not permitted" rfl

/-! ## C2: convergence of repeated EnsureRoutes runs -/

/-- C2 (amended): after a successful EnsureRoutes run over a desired set with
distinct CIDRs, the returned cache holds exactly the desired entries whose
install did not fail as gateway-unreachable (entries already cached count as
installed); a second run with the same desired set also succeeds, leaves the
cache unchanged, performs no successful kernel mutation (its trace has no
successful add or delete), and if no desired entry is gateway-unreachable the
second run's trace is empty. Unreachable entries are re-attempted, so the
second run's trace need not be empty in general. -/
theorem route_convergence (env : RouteEnv) (iface : String) (routes0 : RouteCache)
    (desired : List (String × String))
    (hkeys : (desired.map Prod.fst).Nodup)
    (herr : (ensureRoutes env iface routes0 desired).error = none) :
    (∀ c v, lookupA (ensureRoutes env iface routes0 desired).routes c = some v ↔
      ((c, v) ∈ desired ∧
        (lookupA routes0 c = some v ∨ unreachAdd env iface c v = false))) ∧
    (ensureRoutes env iface (ensureRoutes env iface routes0 desired).routes desired).error
        = none ∧
    (ensureRoutes env iface (ensureRoutes env iface routes0 desired).routes desired).routes
        = (ensureRoutes env iface routes0 desired).routes ∧
    (∀ op ∈ (ensureRoutes env iface
        (ensureRoutes env iface routes0 desired).routes desired).trace,
      isSuccessOp op = false) ∧
    ((∀ c v, (c, v) ∈ desired → unreachAdd env iface c v = false) →
      (ensureRoutes env iface (ensureRoutes env iface routes0 desired).routes desired).trace
        = []) := by
  obtain ⟨A1, Brest⟩ := phase1_spec env iface desired routes0 routes0 hkeys
    (fun _ _ _ => rfl)
  have hp1 : (ensureAdds env iface routes0 routes0 desired).err = none := by
    cases hE : (ensureAdds env iface routes0 routes0 desired).err with
    | none => rfl
    | some e =>
      rw [ensureRoutes_err_of_p1_err env iface routes0 desired e hE] at herr
      cases herr
  obtain ⟨B1, C1l, C2l⟩ := Brest hp1
  have heq := ensureRoutes_eq_of_p1_none env iface routes0 desired hp1
  have hp2 : (ensureDels env (ensureAdds env iface routes0 routes0 desired).routes
      (ensureAdds env iface routes0 routes0 desired).current).err = none := by
    rw [heq] at herr
    exact herr
  obtain ⟨D1, D2, _D3⟩ := (phase2_spec env
    (ensureAdds env iface routes0 routes0 desired).current
    (ensureAdds env iface routes0 routes0 desired).routes).2 hp2
  have hsucc_nunreach : ∀ c v, addRouteL env c v iface = none →
      unreachAdd env iface c v = false := by
    intro c v h
    unfold unreachAdd
    rw [h]
  have H1 : ∀ c v, lookupA (ensureRoutes env iface routes0 desired).routes c = some v ↔
      ((c, v) ∈ desired ∧
        (lookupA routes0 c = some v ∨ unreachAdd env iface c v = false)) := by
    intro c v
    rw [heq]
    dsimp only
    constructor
    · intro hfin
      by_cases hckey : c ∈ (ensureAdds env iface routes0 routes0 desired).current.map Prod.fst
      · rw [D1 c hckey] at hfin
        cases hfin
      · rw [D2 c hckey] at hfin
        rcases (B1 c v).mp hfin with ⟨hm, hcond⟩ | ⟨hl0, hall⟩
        · refine ⟨hm, ?_⟩
          rcases hcond with h | h
          · exact Or.inl h
          · exact Or.inr (hsucc_nunreach c v h)
        · exfalso
          have hcur := C2l c (fun w hw => hall w hw)
          have hnone : lookupA (ensureAdds env iface routes0 routes0 desired).current c
              = none := (lookupA_eq_none_iff _ c).mpr hckey
          rw [hcur, hl0] at hnone
          cases hnone
    · rintro ⟨hm, hcond⟩
      have hres : lookupA routes0 c = some v ∨ addRouteL env c v iface = none := by
        rcases hcond with h | h
        · exact Or.inl h
        · rcases A1.mp hp1 c v hm with hs | hsu | hu
          · exact Or.inl hs
          · exact Or.inr hsu
          · rw [h] at hu
            cases hu
      have hkeynone : lookupA (ensureAdds env iface routes0 routes0 desired).current c
          = none := C1l c v hm hres
      have hckey : c ∉ (ensureAdds env iface routes0 routes0 desired).current.map Prod.fst :=
        (lookupA_eq_none_iff _ c).mp hkeynone
      rw [D2 c hckey]
      exact (B1 c v).mpr (Or.inl ⟨hm, hres⟩)
  set R1 : RouteCache := (ensureRoutes env iface routes0 desired).routes with hR1
  have hcond2 : ∀ c v, (c, v) ∈ desired →
      (lookupA R1 c = some v ∨
       (unreachAdd env iface c v = true ∧ lookupA R1 c = none)) := by
    intro c v hm
    by_cases hw : lookupA R1 c = some v
    · exact Or.inl hw
    · refine Or.inr ⟨?_, ?_⟩
      · by_contra hu
        refine hw ((H1 c v).mpr ⟨hm, Or.inr ?_⟩)
        cases h : unreachAdd env iface c v
        · rfl
        · exact absurd h hu
      · cases hl : lookupA R1 c with
        | none => rfl
        | some w =>
          exfalso
          have hmem := ((H1 c w).mp hl).1
          have h1 := lookupA_of_mem_nodup desired hkeys c v hm
          have h2 := lookupA_of_mem_nodup desired hkeys c w hmem
          rw [h1] at h2
          injection h2 with h2
          rw [← h2] at hl
          exact hw hl
  obtain ⟨N1, N2, N3, N4, N5⟩ := phase1_noop env iface desired R1 R1 hkeys hcond2
  have hcurnil : (ensureAdds env iface R1 R1 desired).current = [] := by
    apply eq_nil_of_lookupA_none
    intro c
    cases h : lookupA (ensureAdds env iface R1 R1 desired).current c with
    | none => rfl
    | some w =>
      obtain ⟨hl, hnm⟩ := N5 c w h
      exact absurd ((H1 c w).mp hl).1 hnm
  have heq2 := ensureRoutes_eq_of_p1_none env iface R1 desired N2
  rw [N1, hcurnil] at heq2
  have hdel : ensureDels env R1 [] = ⟨R1, [], none⟩ := rfl
  rw [hdel] at heq2
  dsimp only at heq2
  rw [List.append_nil] at heq2
  refine ⟨H1, ?_, ?_, ?_, ?_⟩
  · rw [heq2]
  · rw [heq2]
  · intro op hop
    rw [heq2] at hop
    exact N3 op hop
  · intro hall
    rw [heq2]
    dsimp only
    apply N4
    intro c v hm
    rcases hcond2 c v hm with h | ⟨hu, _⟩
    · exact h
    · rw [hall c v hm] at hu
      cases hu

theorem route_convergence_witness :
    (((([("10.99.1.0/24", "100.64.0.1")] : List (String × String)).map Prod.fst).Nodup ∧
      (ensureRoutes ⟨fun _ _ => .ok, fun _ => .ok, fun _ => some 1⟩ "tailscale0" []
        [("10.99.1.0/24", "100.64.0.1")]).error = none)) ∧
    (ensureRoutes ⟨fun _ _ => .ok, fun _ => .ok, fun _ => some 1⟩ "tailscale0"
      (ensureRoutes ⟨fun _ _ => .ok, fun _ => .ok, fun _ => some 1⟩ "tailscale0" []
        [("10.99.1.0/24", "100.64.0.1")]).routes
      [("10.99.1.0/24", "100.64.0.1")]).trace = [] := by
  refine ⟨⟨by decide, by decide⟩, ?_⟩
  refine (route_convergence ⟨fun _ _ => .ok, fun _ => .ok, fun _ => some 1⟩ "tailscale0" []
    [("10.99.1.0/24", "100.64.0.1")] (by decide) (by decide)).2.2.2.2 ?_
  intro c v hm
  rw [List.mem_singleton] at hm
  obtain ⟨h1, h2⟩ : c = "10.99.1.0/24" ∧ v = "100.64.0.1" :=
    ⟨congrArg Prod.fst hm, congrArg Prod.snd hm⟩
  subst h1
  subst h2
  decide

/-- C2 counterexample to the literal claim: with a desired CIDR whose gateway
stays unreachable, the first EnsureRoutes run succeeds, yet the second run
with the unchanged desired set and the returned cache performs a kernel
operation again (its trace is the re-attempted unreachable add, not empty). -/
theorem route_convergence_counterexample :
    (ensureRoutes ⟨fun _ _ => .enetunreach, fun _ => .ok, fun _ => some 1⟩ "tailscale0" []
      [("10.99.1.0/24", "100.64.0.1")]).error = none ∧
    (ensureRoutes ⟨fun _ _ => .enetunreach, fun _ => .ok, fun _ => some 1⟩ "tailscale0"
      (ensureRoutes ⟨fun _ _ => .enetunreach, fun _ => .ok, fun _ => some 1⟩ "tailscale0" []
        [("10.99.1.0/24", "100.64.0.1")]).routes
      [("10.99.1.0/24", "100.64.0.1")]).trace ≠ [] := by
  refine ⟨by decide, by decide⟩

end TailscaleCNI
